import Mathlib

/-!
Shallow embedding of `src/paranoia/cachetest.c` (`paranoia_analyze_verify`).

The drive interface (`cdda_read`, `cdda_milliseconds`, track queries, speed
control) is an external collaborator; it is modelled as an oracle `Session`
indexed by the number of read operations issued so far.  `cdda_milliseconds`
is modelled by the `lastMs` field of the probe state, updated at each read.

C loops are translated as structural recursion on an explicit `fuel : Nat`
argument.  For each loop the fuel passed at the call site is a constant (or a
value computed from the loop's entry state) that exceeds the loop's iteration
bound, so the fuel-zero case is unreachable or coincides with the loop's
normal exit; this is noted at each definition.

Ghost fields (`readLog`, `speedCalls`, `slowRounds`) record observable events
without influencing control flow.
-/

namespace Cachetest

/-- External drive session: track layout plus a deterministic oracle for the
reads the probe issues.  `readRet k off len` is the value `cdda_read` returns
for the `k`-th read operation (0-based) when asked for `len` sectors at
`off`; `readMs k off len` is the elapsed-time value `cdda_milliseconds`
reports after that operation. -/
structure Session where
  tracks : Nat
  audiop : Nat → Bool
  tFirst : Nat → Int
  tLast : Nat → Int
  readRet : Nat → Int → Int → Int
  readMs : Nat → Int → Int → Int

/-- Probe state threaded through the run: `n` counts the reads issued,
`lastMs` is the current `cdda_milliseconds` value, the rest are ghost
observables (`readLog` holds `(offset, length)` of each read, most recent
first). -/
structure PS where
  n : Nat := 0
  lastMs : Int := 0
  readLog : List (Int × Int) := []
  speedCalls : Nat := 0
  slowRounds : Nat := 0
deriving DecidableEq

/-- One `cdda_read(d, NULL, off, len)` call. -/
def doRead (s : Session) (st : PS) (off len : Int) : Int × PS :=
  (s.readRet st.n off len,
    { st with
      n := st.n + 1
      lastMs := s.readMs st.n off len
      readLog := (off, len) :: st.readLog })

/-- Lines 77-90: one step of the longest-audio-stretch scan, acting on
`(firstsector, lastsector, firsttest, lasttest)`. -/
def stretchStep (s : Session) (i : Nat) :
    Int × Int × Int × Int → Int × Int × Int × Int :=
  fun (fs, ls, ft, lt) =>
    if s.audiop (i + 1) then
      let ft' := if ft = -1 then s.tFirst (i + 1) else ft
      let lt' := s.tLast (i + 1)
      if lt' - ft' > ls - fs then (ft', lt', ft', lt') else (fs, ls, ft', lt')
    else (fs, ls, -1, -1)

/-- Lines 77-90: the `(firstsector, lastsector)` pair computed by the
track scan (both `-1` when the disc has no audio). -/
def longestStretch (s : Session) : Int × Int :=
  let r := (List.range s.tracks).foldl (fun acc i => stretchStep s i acc)
    (-1, -1, -1, -1)
  (r.1, r.2.1)

/-- Lines 151-152: clamp a `cdda_milliseconds` value into `[0, 9999]`. -/
def clampMs (x : Int) : Int :=
  if x > 9999 then 9999 else if x < 0 then 0 else x

/-- Line 159: `sum` accumulated over the non-trigger samples
`(latency, sectors)`. -/
def sumLat (ls : List (Int × Int)) : ℚ :=
  (ls.map fun p => (p.1 : ℚ)).sum

/-- Line 160: `sumsq` accumulated over the non-trigger samples
(`x*x/(float)ret`). -/
def sumSq (ls : List (Int × Int)) : ℚ :=
  (ls.map fun p => (p.1 : ℚ) * (p.1 : ℚ) / (p.2 : ℚ)).sum

/-- Line 166: `mean = sum/(current-1)`; the divisor `n` is passed in
(`999` at the call site). -/
def rawMean (n : ℚ) (ls : List (Int × Int)) : ℚ := sumLat ls / n

/-- Line 167: the argument of `sqrt`, `sumsq/(current-1) - mean*mean`
(the variance; `stddev` is its square root). -/
def rawVar (n : ℚ) (ls : List (Int × Int)) : ℚ :=
  sumSq ls / n - rawMean n ls * rawMean n ls

/-- Lines 168, 174-175: decide `per <= upper` where
`upper = mean + ((isnan(stddev) || stddev*2 < 1) ? 1 : stddev*2)` and
`stddev = sqrt var`, without leaving `ℚ`.  `isnan(stddev)` is exactly
`var < 0`; for `var >= 0` we have `stddev*2 < 1 ↔ 4*var < 1`, and
`per <= mean + 2*sqrt var ↔ per <= mean ∨ (per-mean)^2 <= 4*var`
(proved below as `belowUpper_iff_real`). -/
def belowUpper (mean var per : ℚ) : Bool :=
  if var < 0 ∨ 4 * var < 1 then decide (per ≤ mean + 1)
  else decide (per ≤ mean) || decide ((per - mean) * (per - mean) ≤ 4 * var)

/-- Lines 171-179: the second accumulation pass; returns the pair
(`mean` accumulator, `sofar` accumulator) after the `j` loop. -/
def passTwo (n : ℚ) (ls : List (Int × Int)) : ℚ × ℚ :=
  let m := rawMean n ls
  let v := rawVar n ls
  ls.foldl
    (fun acc p =>
      if belowUpper m v ((p.1 : ℚ) / (p.2 : ℚ)) then
        (acc.1 + (p.1 : ℚ), acc.2 + (p.2 : ℚ))
      else acc)
    (0, 0)

/-- Line 180: `mean /= sofar` (the reported mean latency per sector). -/
def refinedMean (n : ℚ) (ls : List (Int × Int)) : ℚ :=
  (passTwo n ls).1 / (passTwo n ls).2

/-- Result of the baseline sampling loop (lines 139-162): a `-404` media
error (fatal), an ordinary media error (`goto next`), or the collected
non-trigger samples in order. -/
inductive BSample where
  | fatal (st : PS)
  | next (st : PS)
  | ok (tail : List (Int × Int)) (st : PS)
deriving DecidableEq

/-- Lines 139-162: the sampling loop at one baseline offset.  `sofar` and the
window size `1000` (`current` in the C scope) are as in the source; `acc`
accumulates the non-trigger `(latency, sectors)` samples in reverse.  Each
iteration increases `sofar` by at least one, so at most `1000` iterations
run; the call site passes fuel `1001`, making the fuel-zero case
unreachable. -/
def sampleLoop (s : Session) (offset : Int) :
    Nat → Int → Nat → List (Int × Int) → PS → BSample
  | 0, _, _, acc, st => .ok acc.reverse st
  | fuel + 1, sofar, i, acc, st =>
    if sofar < 1000 then
      let toread : Int := if i = 0 then 1 else 1000 - sofar
      let (ret, st') := doRead s st (offset + sofar) toread
      if ret ≤ 0 then
        if ret = -404 then .fatal st' else .next st'
      else
        let x := clampMs st'.lastMs
        if i = 0 then sampleLoop s offset fuel (sofar + ret) (i + 1) acc st'
        else sampleLoop s offset fuel (sofar + ret) (i + 1) ((x, ret) :: acc) st'
    else .ok acc.reverse st

/-- Lines 186-197: the spin-up ("drift") bookkeeping after one baseline
offset's statistics.  Returns the updated `(iterating, best, bestcount)`.
`sofar = mean*current` truncates a nonnegative double to `int` in C, which
is `Rat.floor` for the nonnegative values that occur. -/
def spinup (tail : List (Int × Int)) (iterating : Bool) (best bestcount : Int) :
    Bool × Int × Int :=
  let sofar : Int := Rat.floor (refinedMean 999 tail * 1000)
  if iterating then (iterating, best, bestcount)
  else
    if -sofar < best then (false, -sofar, 0)
    else
      let bc := bestcount + sofar
      if bc > sofar ∧ bc > 2000 then (true, best, bc) else (false, best, bc)

/-- Result of the baseline phase: fatal (`return -1`) or done. -/
inductive BRes where
  | fatal (st : PS)
  | ok (st : PS)
deriving DecidableEq

/-- Lines 115-209: the baseline offset loop.  One iteration per probed
offset: the setup read (line 130, note the strict `< 0` error test), the
sampling loop, the statistics/spin-up block, and the `next:` stepping
(dense `offset--`, or the coarse period-aligned jump once `iterating`).
`offset` strictly decreases each iteration, so the call site's fuel
`(offset0 - firstsector + 2).toNat` exceeds the iteration count and the
fuel-zero case is unreachable (when the fuel is `0` the loop condition is
already false). -/
def baseLoop (s : Session) (first : Int) :
    Nat → Int → Bool → Int → Int → PS → BRes
  | 0, _, _, _, _, st => .ok st
  | fuel + 1, offset, iterating, best, bestcount, st =>
    if offset ≥ first then
      let (ret, st') := doRead s st (offset + 1000 + 1) 1
      if ret < 0 then
        if ret = -404 then .fatal st'
        else
          -- media error during setup: `goto next`
          baseLoop s first fuel
            (if iterating then
              (offset - first + 44999) / 45000 * 45000 + first - 45000
            else offset - 1)
            iterating best bestcount st'
      else
        match sampleLoop s offset 1001 0 0 [] st' with
        | .fatal st'' => .fatal st''
        | .next st'' =>
          baseLoop s first fuel
            (if iterating then
              (offset - first + 44999) / 45000 * 45000 + first - 45000
            else offset - 1)
            iterating best bestcount st''
        | .ok tail st'' =>
          let (it', b', bc') := spinup tail iterating best bestcount
          baseLoop s first fuel
            (if it' then
              (offset - first + 44999) / 45000 * 45000 + first - 45000
            else offset - 1)
            it' b' bc' st''
    else .ok st

/-- Result of one retry (`j`) loop in the search phase: fatal (`return -1`),
or success with the hit flag (`cdda_milliseconds(d) < 9`), the possibly
relocated offset, and the state. -/
inductive JRes where
  | fatal (st : PS)
  | ok (under : Bool) (offset : Int) (st : PS)
deriving DecidableEq

/-- Lines 253-258: the slow-verify fill loop, reading the whole window
`[offset, offset+current)`.  `ret1` is the value of the last read (the C
variable holds no defined value before the first iteration; the loop always runs
at least once since `current >= 1` at every call site, so the `0` passed for
it at entry is never returned).  Each iteration increases `sofar`, so at
most `current <= 15001` iterations run; the call site passes fuel `15002`,
making the fuel-zero case unreachable. -/
def slowFill (s : Session) (offset current : Int) :
    Nat → Int → Int → PS → Int × PS
  | 0, _, ret1, st => (ret1, st)
  | fuel + 1, sofar, ret1, st =>
    if sofar < current then
      let (r, st') := doRead s st (offset + sofar) (current - sofar)
      if r ≤ 0 then (r, st')
      else slowFill s offset current fuel (sofar + r) r st'
    else (ret1, st)

/-- Lines 233-284: the inner retry loop of the fast/slow cache-size search
at probe length `current` and round `i`.  A failed pair of reads relocates
`offset` by `current + 100` and retries; the 11th failure (`j == 10`) or a
relocated window past `lastS` is fatal.  `j` never exceeds `10`, so the
call site's fuel `11` makes the fuel-zero case unreachable.  The round's
classification is `cdda_milliseconds(d) < 9` after the re-read, with `-1`
a fatal timing fault.  The `speedCalls`/`slowRounds` bumps are ghost
records of the `i == 5` speed change and of slow-branch executions. -/
def jloopS (s : Session) (lastS current : Int) (i : Int) :
    Nat → Int → Int → PS → JRes
  | 0, _, _, st => .fatal st
  | fuel + 1, j, offset, st =>
    let (ret1, st₁) :=
      if i ≥ 5 then
        slowFill s offset current 15002 0 0
          (if i = 5 then
            { st with speedCalls := st.speedCalls + 1, slowRounds := st.slowRounds + 1 }
          else { st with slowRounds := st.slowRounds + 1 })
      else doRead s st (offset + current - 1) 1
    let (ret2, st₂) := doRead s st₁ offset 1
    if ret1 ≤ 0 ∨ ret2 ≤ 0 then
      let offset' := offset + current + 100
      if j = 10 ∨ offset' + current > lastS then .fatal st₂
      else jloopS s lastS current i fuel (j + 1) offset' st₂
    else if st₂.lastMs = -1 then .fatal st₂
    else .ok (decide (st₂.lastMs < 9)) offset st₂

/-- Result of a round loop (`for(i=...;i<N && !under;i++)`): fatal, or done
with the final `under` flag. -/
inductive RRes where
  | fatal (st : PS)
  | done (under : Bool) (offset : Int) (st : PS)
deriving DecidableEq

/-- Lines 232-285: the 15-round confirmation loop of the cache-size search.
The fuel is the number of remaining rounds (`15 - i`; the call site passes
`15` with `i = 0`), so fuel zero is exactly the loop exit with `under`
still `0`. -/
def roundsS (s : Session) (lastS current : Int) :
    Nat → Int → Int → PS → RRes
  | 0, _, offset, st => .done false offset st
  | fuel + 1, i, offset, st =>
    match jloopS s lastS current i 11 0 offset st with
    | .fatal st' => .fatal st'
    | .ok under offset' st' =>
      if under then .done true offset' st'
      else roundsS s lastS current fuel (i + 1) offset' st'

/-- Result of the cache-size search loop: fatal, or the final `current` and
`offset`. -/
inductive SRes where
  | fatal (st : PS)
  | done (current offset : Int) (st : PS)
deriving DecidableEq

/-- Lines 218-286: the `while(current <= hi && under)` search loop
(`hi = 15000`).  `current` increments once per iteration, so from the entry
values (`fuel = 15001`, `current = 0`) the invariant
`current + fuel = 15001` holds and the fuel-zero case coincides with the
loop condition `current <= 15000` being false. -/
def searchLoop (s : Session) (lastS : Int) :
    Nat → Int → Bool → Int → PS → SRes
  | 0, current, _, offset, st => .done current offset st
  | fuel + 1, current, under, offset, st =>
    if current ≤ 15000 ∧ under then
      let c := current + 1
      match roundsS s lastS c 15 0 offset st with
      | .fatal st' => .fatal st'
      | .done u offset' st' => searchLoop s lastS fuel c u offset' st'
    else .done current offset st

/-- Lines 319-352: the inner retry loop of the contiguity check.  The
out-of-space test `offset + seekoff > lastsector` precedes the reads of
every attempt; a failed pair of reads relocates `offset` by
`current + 100`, the 11th failure is fatal.  Fuel `11` as in `jloopS`. -/
def jloopC (s : Session) (lastS current seekoff : Int) :
    Nat → Int → Int → PS → JRes
  | 0, _, _, st => .fatal st
  | fuel + 1, j, offset, st =>
    if offset + seekoff > lastS then .fatal st
    else
      let (ret1, st₁) := doRead s st (offset + seekoff) 1
      let (ret2, st₂) := doRead s st₁ offset 1
      if ret1 ≤ 0 ∨ ret2 ≤ 0 then
        let offset' := offset + current + 100
        if j = 10 then .fatal st₂
        else jloopC s lastS current seekoff fuel (j + 1) offset' st₂
      else if st₂.lastMs = -1 then .fatal st₂
      else .ok (decide (st₂.lastMs < 9)) offset st₂

/-- Lines 317-353: the 30-round contiguity loop; fuel is the number of
remaining rounds (the call site passes `30`). -/
def roundsC (s : Session) (lastS current seekoff : Int) :
    Nat → Int → PS → RRes
  | 0, offset, st => .done false offset st
  | fuel + 1, offset, st =>
    match jloopC s lastS current seekoff 11 0 offset st with
    | .fatal st' => .fatal st'
    | .ok under offset' st' =>
      if under then .done true offset' st'
      else roundsC s lastS current seekoff fuel offset' st'

/-- The observable outcome of `paranoia_analyze_verify`: the C return value
`code`, plus ghost records of the diagnostics — the reported approximate
cache size (line 293), the cannot-determine warning (line 290), the
no-cache report (line 295), the exceeds-model warning (line 303), and the
contiguity result (lines 354-359). -/
structure Outcome where
  code : Int
  size : Option Int := none
  indet : Bool := false
  noCache : Bool := false
  exceeds : Bool := false
  noncontig : Option Bool := none
  st : PS
deriving DecidableEq

/-- Lines 288-372: verdict classification after the cache-size search, the
exceeds-model check, the contiguity phase, and the final `return warn`.
`cachemodel` — Modelled from the spec: the constant `CACHEMODEL_SECTORS`
comes from `p_block.h`, which is not among the sources; the spec describes
it only as the model ceiling, so it is kept as a parameter. -/
def afterSearch (s : Session) (cachemodel lastS : Int) : SRes → Outcome
  | .fatal st => { code := -1, st := st }
  | .done current offset st =>
    if current = 15000 then { code := 1, indet := true, st := st }
    else if current > 1 then
      let size := current - 1
      let exceeds := decide (size > cachemodel)
      let seekoff := current * 3
      match roundsC s lastS current seekoff 30 offset st with
      | .fatal st' => { code := -1, size := some size, exceeds := exceeds, st := st' }
      | .done under _ st' =>
        { code := if exceeds || under then 1 else 0
          size := some size
          exceeds := exceeds
          noncontig := some under
          st := st' }
    else { code := 0, noCache := true, st := st }

/-- Lines 33-372: `paranoia_analyze_verify`. -/
def analyzeVerify (cachemodel : Int) (s : Session) : Outcome :=
  let fl := longestStretch s
  if fl.1 = -1 then { code := -1, st := {} }
  else
    let off0 := fl.2 - fl.1 - 1000 - 1
    match baseLoop s fl.1 ((off0 - fl.1 + 2).toNat) off0 false 0 0 {} with
    | .fatal st => { code := -1, st := st }
    | .ok st =>
      afterSearch s cachemodel fl.2 (searchLoop s fl.2 15001 0 true fl.1 st)

/-! ### Spec-side formulations of the outlier-rejecting statistics (§4.3)

The following definitions are written from the spec's words, to be compared
with the code-side `rawMean`, `rawVar`, `belowUpper`, `passTwo` above. -/

/-- Total sectors served by a sample list: the weight of the weighted
statistics. -/
def weightSum (ls : List (Int × Int)) : ℚ :=
  (ls.map fun p => (p.2 : ℚ)).sum

/-- Spec §4.3 step 1, as written: the mean of per-sector latency
(`latency / sectorsServed`), weighted by sectors served. -/
def specMean (ls : List (Int × Int)) : ℚ :=
  (ls.map fun p => (p.1 : ℚ) / (p.2 : ℚ) * (p.2 : ℚ)).sum / weightSum ls

/-- Spec §4.3 step 1, as written: the population variance of per-sector
latency, weighted by sectors served. -/
def specVar (ls : List (Int × Int)) : ℚ :=
  (ls.map fun p => ((p.1 : ℚ) / (p.2 : ℚ) - specMean ls) ^ 2 * (p.2 : ℚ)).sum
    / weightSum ls

/-- Spec §4.3 step 2, as written: the upper rejection bound
`mean + max(1.0, 2*stddev)`. -/
noncomputable def specUpperBound (ls : List (Int × Int)) : ℝ :=
  (specMean ls : ℝ) + max 1 (2 * Real.sqrt (specVar ls : ℝ))

@[simp] theorem sumLat_nil : sumLat [] = 0 := rfl

@[simp] theorem sumLat_cons (p : Int × Int) (t : List (Int × Int)) :
    sumLat (p :: t) = (p.1 : ℚ) + sumLat t := by
  simp [sumLat]

@[simp] theorem sumSq_nil : sumSq [] = 0 := rfl

@[simp] theorem sumSq_cons (p : Int × Int) (t : List (Int × Int)) :
    sumSq (p :: t) = (p.1 : ℚ) * (p.1 : ℚ) / (p.2 : ℚ) + sumSq t := by
  simp [sumSq]

@[simp] theorem weightSum_nil : weightSum [] = 0 := rfl

@[simp] theorem weightSum_cons (p : Int × Int) (t : List (Int × Int)) :
    weightSum (p :: t) = (p.2 : ℚ) + weightSum t := by
  simp [weightSum]

theorem weightSum_pos (ls : List (Int × Int)) (hne : ls ≠ [])
    (hpos : ∀ p ∈ ls, (0 : Int) < p.2) : 0 < weightSum ls := by
  refine List.sum_pos _ ?_ ?_
  · intro x hx
    obtain ⟨p, hp, rfl⟩ := List.mem_map.mp hx
    exact_mod_cast hpos p hp
  · simpa using hne

theorem sumLat_nonneg (ls : List (Int × Int))
    (h : ∀ p ∈ ls, (0 : Int) ≤ p.1) : 0 ≤ sumLat ls := by
  refine List.sum_nonneg ?_
  intro x hx
  obtain ⟨p, hp, rfl⟩ := List.mem_map.mp hx
  exact_mod_cast h p hp

theorem sum_per_mul_weight (ls : List (Int × Int))
    (h : ∀ p ∈ ls, (p.2 : ℚ) ≠ 0) :
    (ls.map fun p => (p.1 : ℚ) / (p.2 : ℚ) * (p.2 : ℚ)).sum = sumLat ls := by
  induction ls with
  | nil => simp
  | cons p t ih =>
    simp only [List.map_cons, List.sum_cons, sumLat_cons]
    rw [div_mul_cancel₀ _ (h p (List.mem_cons_self p t))]
    rw [ih (fun q hq => h q (List.mem_cons_of_mem p hq))]

theorem sum_sub_sq (μ : ℚ) (ls : List (Int × Int))
    (h : ∀ p ∈ ls, (p.2 : ℚ) ≠ 0) :
    (ls.map fun p => ((p.1 : ℚ) / (p.2 : ℚ) - μ) ^ 2 * (p.2 : ℚ)).sum
      = sumSq ls - 2 * μ * sumLat ls + μ ^ 2 * weightSum ls := by
  induction ls with
  | nil => simp
  | cons p t ih =>
    simp only [List.map_cons, List.sum_cons, sumSq_cons, sumLat_cons, weightSum_cons]
    rw [ih (fun q hq => h q (List.mem_cons_of_mem p hq))]
    have hp2 : (p.2 : ℚ) ≠ 0 := h p (List.mem_cons_self p t)
    have key : ((p.1 : ℚ) / (p.2 : ℚ) - μ) ^ 2 * (p.2 : ℚ)
        = (p.1 : ℚ) * (p.1 : ℚ) / (p.2 : ℚ) - 2 * μ * (p.1 : ℚ) + μ ^ 2 * (p.2 : ℚ) := by
      field_simp
      ring
    rw [key]
    ring

/-- With the weights summing to the divisor `n`, the code's `sum/(current-1)`
is the spec's weighted per-sector mean. -/
theorem rawMean_eq_specMean (n : ℚ) (ls : List (Int × Int))
    (hpos : ∀ p ∈ ls, (0 : Int) < p.2) (hW : weightSum ls = n) :
    rawMean n ls = specMean ls := by
  have hne : ∀ p ∈ ls, (p.2 : ℚ) ≠ 0 := fun p hp => by
    have := hpos p hp
    positivity
  rw [specMean, sum_per_mul_weight ls hne, hW, rawMean]

/-- With the weights summing to the divisor `n`, the code's
`sumsq/(current-1) - mean*mean` is the spec's weighted population variance
of per-sector latency. -/
theorem rawVar_eq_specVar (n : ℚ) (ls : List (Int × Int)) (hne : ls ≠ [])
    (hpos : ∀ p ∈ ls, (0 : Int) < p.2) (hW : weightSum ls = n) :
    rawVar n ls = specVar ls := by
  have hq : ∀ p ∈ ls, (p.2 : ℚ) ≠ 0 := fun p hp => by
    have := hpos p hp
    positivity
  have hWpos : 0 < weightSum ls := weightSum_pos ls hne hpos
  have hn : n ≠ 0 := by rw [← hW]; exact ne_of_gt hWpos
  have hmean : specMean ls = sumLat ls / weightSum ls := by
    rw [specMean, sum_per_mul_weight ls hq]
  rw [specVar, sum_sub_sq _ ls hq, hmean, hW, rawVar, rawMean]
  field_simp
  ring

theorem specVar_nonneg (ls : List (Int × Int))
    (hpos : ∀ p ∈ ls, (0 : Int) < p.2) : 0 ≤ specVar ls := by
  rw [specVar]
  refine div_nonneg (List.sum_nonneg ?_) ?_
  · intro x hx
    obtain ⟨p, hp, rfl⟩ := List.mem_map.mp hx
    have : (0 : ℚ) ≤ (p.2 : ℚ) := by
      have := hpos p hp
      positivity
    positivity
  · refine List.sum_nonneg ?_
    intro x hx
    obtain ⟨p, hp, rfl⟩ := List.mem_map.mp hx
    have := hpos p hp
    positivity

/-- The rational test `belowUpper` computes exactly the comparison
`per <= mean + (if the stddev is NaN or 2*stddev < 1 then 1 else 2*stddev)`
over the reals, which for a nonnegative variance equals
`per <= mean + max 1 (2*sqrt var)`. -/
theorem belowUpper_iff_real (m v per : ℚ) (hv : 0 ≤ v) :
    belowUpper m v per = true ↔
      (per : ℝ) ≤ (m : ℝ) + max 1 (2 * Real.sqrt (v : ℝ)) := by
  have hv' : (0 : ℝ) ≤ (v : ℝ) := by exact_mod_cast hv
  have hsq : Real.sqrt (v : ℝ) ^ 2 = (v : ℝ) := Real.sq_sqrt hv'
  have hs0 : 0 ≤ Real.sqrt (v : ℝ) := Real.sqrt_nonneg _
  by_cases hc : v < 0 ∨ 4 * v < 1
  · have h4 : 4 * v < 1 := by
      rcases hc with h | h
      · exact absurd h (not_lt.mpr hv)
      · exact h
    have hmax : max 1 (2 * Real.sqrt (v : ℝ)) = 1 := by
      refine max_eq_left ?_
      have : Real.sqrt (v : ℝ) < 1 / 2 := by
        rw [Real.sqrt_lt' (by norm_num)]
        have : (v : ℝ) < 1 / 4 := by
          have : ((4 * v : ℚ) : ℝ) < ((1 : ℚ) : ℝ) := by exact_mod_cast h4
          push_cast at this
          linarith
        nlinarith
      nlinarith
    rw [hmax]
    simp only [belowUpper, if_pos hc, decide_eq_true_eq]
    constructor
    · intro h
      have : ((per : ℚ) : ℝ) ≤ ((m + 1 : ℚ) : ℝ) := by exact_mod_cast h
      push_cast at this
      linarith
    · intro h
      have : ((per : ℚ) : ℝ) ≤ ((m + 1 : ℚ) : ℝ) := by push_cast; linarith
      exact_mod_cast this
  · have h4 : 1 ≤ 4 * v := by
      push_neg at hc
      exact hc.2
    have hmax : max 1 (2 * Real.sqrt (v : ℝ)) = 2 * Real.sqrt (v : ℝ) := by
      refine max_eq_right ?_
      have : (1 : ℝ) / 2 ≤ Real.sqrt (v : ℝ) := by
        rw [Real.le_sqrt' (by norm_num)]
        have : ((1 : ℚ) : ℝ) ≤ ((4 * v : ℚ) : ℝ) := by exact_mod_cast h4
        push_cast at this
        nlinarith
      linarith
    rw [hmax]
    simp only [belowUpper, if_neg hc, Bool.or_eq_true, decide_eq_true_eq]
    constructor
    · rintro (h | h)
      · have : ((per : ℚ) : ℝ) ≤ ((m : ℚ) : ℝ) := by exact_mod_cast h
        nlinarith
      · have h' : (((per - m) * (per - m) : ℚ) : ℝ) ≤ ((4 * v : ℚ) : ℝ) := by
          exact_mod_cast h
        push_cast at h'
        nlinarith [sq_nonneg ((per : ℝ) - (m : ℝ) + 2 * Real.sqrt (v : ℝ))]
    · intro h
      by_cases hpm : per ≤ m
      · exact Or.inl hpm
      · right
        push_neg at hpm
        have hpm' : ((m : ℚ) : ℝ) < ((per : ℚ) : ℝ) := by exact_mod_cast hpm
        have h2 : (((per - m) * (per - m) : ℚ) : ℝ) ≤ ((4 * v : ℚ) : ℝ) := by
          push_cast
          nlinarith
        exact_mod_cast h2

/-- The second accumulation pass sums exactly over the retained samples. -/
theorem passTwo_foldl_filter (f : Int × Int → Bool) (ls : List (Int × Int)) :
    ∀ a b : ℚ,
      ls.foldl
        (fun acc p =>
          if f p then (acc.1 + (p.1 : ℚ), acc.2 + (p.2 : ℚ)) else acc) (a, b)
      = (a + ((ls.filter f).map fun p => (p.1 : ℚ)).sum,
         b + ((ls.filter f).map fun p => (p.2 : ℚ)).sum) := by
  induction ls with
  | nil => intro a b; simp
  | cons p t ih =>
    intro a b
    by_cases hp : f p = true
    · rw [List.foldl_cons, if_pos hp, List.filter_cons_of_pos hp, List.map_cons,
        List.map_cons, List.sum_cons, List.sum_cons, ih]
      simp only [Prod.mk.injEq]
      exact ⟨by ring, by ring⟩
    · rw [List.foldl_cons, if_neg hp, List.filter_cons_of_neg hp, ih]

theorem passTwo_eq_filter (n : ℚ) (ls : List (Int × Int)) :
    passTwo n ls
      = (((ls.filter fun p =>
            belowUpper (rawMean n ls) (rawVar n ls) ((p.1 : ℚ) / (p.2 : ℚ))).map
              fun p => (p.1 : ℚ)).sum,
         ((ls.filter fun p =>
            belowUpper (rawMean n ls) (rawVar n ls) ((p.1 : ℚ) / (p.2 : ℚ))).map
              fun p => (p.2 : ℚ)).sum) := by
  rw [passTwo, passTwo_foldl_filter]
  simp

theorem le_sum_of_mem_q {a : ℚ} {l : List ℚ} (h : ∀ x ∈ l, 0 ≤ x) (ha : a ∈ l) :
    a ≤ l.sum := by
  induction l with
  | nil => cases ha
  | cons b t ih =>
    rcases List.mem_cons.mp ha with rfl | ha'
    · have : 0 ≤ t.sum := List.sum_nonneg fun x hx => h x (List.mem_cons_of_mem _ hx)
      simp only [List.sum_cons]
      linarith
    · have hb : 0 ≤ b := h b (List.mem_cons_self b t)
      have := ih (fun x hx => h x (List.mem_cons_of_mem _ hx)) ha'
      simp only [List.sum_cons]
      linarith

/-- The minimum per-sector latency of the sample list never exceeds the
code's first-pass mean (the divisor `n` being at most the total weight). -/
theorem min_per_le_rawMean (n : ℚ) (ls : List (Int × Int)) (p₀ : Int × Int)
    (hmem : p₀ ∈ ls) (hmin : ∀ p ∈ ls, (p₀.1 : ℚ) / (p₀.2 : ℚ) ≤ (p.1 : ℚ) / (p.2 : ℚ))
    (hpos : ∀ p ∈ ls, (0 : Int) < p.2 ∧ (0 : Int) ≤ p.1)
    (hn : 0 < n) (hW : n ≤ weightSum ls) :
    (p₀.1 : ℚ) / (p₀.2 : ℚ) ≤ rawMean n ls := by
  set per₀ : ℚ := (p₀.1 : ℚ) / (p₀.2 : ℚ) with hper₀
  have hWpos : 0 < weightSum ls := lt_of_lt_of_le hn hW
  have hS : 0 ≤ sumLat ls := sumLat_nonneg ls fun p hp => (hpos p hp).2
  have hstep : per₀ * weightSum ls ≤ sumLat ls := by
    have h1 : (ls.map fun p => per₀ * (p.2 : ℚ)).sum = per₀ * weightSum ls := by
      rw [weightSum, List.sum_map_mul_left]
    have h2 : (ls.map fun p => per₀ * (p.2 : ℚ)).sum ≤ (ls.map fun p => (p.1 : ℚ)).sum := by
      refine List.sum_le_sum ?_
      intro p hp
      have hp2 : (0 : ℚ) < (p.2 : ℚ) := by exact_mod_cast (hpos p hp).1
      have := hmin p hp
      calc per₀ * (p.2 : ℚ) ≤ (p.1 : ℚ) / (p.2 : ℚ) * (p.2 : ℚ) := by
            exact mul_le_mul_of_nonneg_right this (le_of_lt hp2)
        _ = (p.1 : ℚ) := div_mul_cancel₀ _ (ne_of_gt hp2)
    rw [h1] at h2
    exact h2.trans_eq rfl
  have hper₀nn : 0 ≤ per₀ := by
    have h1 : (0 : ℚ) ≤ (p₀.1 : ℚ) := by exact_mod_cast (hpos p₀ hmem).2
    have h2 : (0 : ℚ) < (p₀.2 : ℚ) := by exact_mod_cast (hpos p₀ hmem).1
    positivity
  rw [rawMean, le_div_iff₀ hn]
  calc per₀ * n ≤ per₀ * weightSum ls := by
        exact mul_le_mul_of_nonneg_left hW hper₀nn
    _ ≤ sumLat ls := hstep
/-! ### Concrete sessions used as test vectors

All of them use a single audio track covering sectors `0..500`; the disc is
shorter than the `1002`-sector baseline window, so the baseline offset loop
is never entered (`offset0 = -501 < firstsector`) and the cache-size search
starts at op index `0` with `offset = 0`. -/

/-- A one-track disc (sectors `0..500`) with the given read oracles. -/
def discS (rr rm : Nat → Int → Int → Int) : Session :=
  { tracks := 1, audiop := fun _ => true, tFirst := fun _ => 0,
    tLast := fun _ => 500, readRet := rr, readMs := rm }

/-- Every read succeeds, every elapsed time is `100` ms: every re-read is a
miss. -/
def allMissS : Session := discS (fun _ _ l => max 1 l) (fun _ _ _ => 100)

/-- Every read succeeds, every elapsed time is `1` ms: every re-read is a
hit. -/
def bigCacheS : Session := discS (fun _ _ l => max 1 l) (fun _ _ _ => 1)

/-- Every read succeeds; at probe length 1 the first confirmation round
misses (op 1) and the second hits (op 3); everything later misses. -/
def missThenHitS : Session :=
  discS (fun _ _ l => max 1 l) (fun k _ _ => if k = 3 then 1 else 100)

/-- A synthetic contiguous cache of `C` sectors: in the error-free run every
round costs two reads, the re-reads are the odd-indexed ops, and the re-read
of the round at probe length `L` (op `2L - 1`) hits exactly when `L ≤ C`. -/
def cacheSession (C : Nat) : Session :=
  discS (fun _ _ l => max 1 l)
    (fun k _ _ => if k % 2 = 1 ∧ k < 2 * C then 1 else 100)

/-- Every read succeeds and misses, but the elapsed time reported for the
very first (fill) read is the `-1` fault sentinel. -/
def fillFaultS : Session :=
  discS (fun _ _ l => max 1 l) (fun k _ _ => if k = 0 then -1 else 100)

/-- The very first read returns the `-404` device-fatal sentinel; all later
reads succeed and miss. -/
def search404S : Session :=
  discS (fun k _ l => if k = 0 then -404 else max 1 l) (fun _ _ _ => 100)

/-! ### Step lemmas for the search-phase loops -/

/-- A fast confirmation round (`i < 5`) whose two reads succeed and whose
re-read timing is not the fault sentinel classifies the round by
`cdda_milliseconds(d) < 9` and leaves the retry loop at once. -/
theorem jloopS_fast_ok (s : Session) (lastS current i : Int) (hi : ¬ 5 ≤ i)
    (fuel : Nat) (j off : Int) (st : PS)
    (h1 : 0 < s.readRet st.n (off + current - 1) 1)
    (h2 : 0 < s.readRet (st.n + 1) off 1)
    (hm : s.readMs (st.n + 1) off 1 ≠ -1) :
    jloopS s lastS current i (fuel + 1) j off st =
      .ok (decide (s.readMs (st.n + 1) off 1 < 9)) off
        { st with
          n := st.n + 2
          lastMs := s.readMs (st.n + 1) off 1
          readLog := (off, 1) :: (off + current - 1, 1) :: st.readLog } := by
  have h1' : ¬ (s.readRet st.n (off + current - 1) 1 ≤ 0) := not_le.mpr h1
  have h2' : ¬ (s.readRet (st.n + 1) off 1 ≤ 0) := not_le.mpr h2
  simp only [jloopS, doRead, if_neg hi]
  simp [h1', h2', hm]

/-- At probe length `1`, the slow-verify fill loop performs exactly one read
(any positive return reaches `sofar >= current`). -/
theorem slowFill_one (s : Session) (off : Int) (fuel : Nat) (st : PS)
    (h1 : 0 < s.readRet st.n off 1) :
    slowFill s off 1 (fuel + 2) 0 0 st =
      (s.readRet st.n off 1,
        { st with
          n := st.n + 1
          lastMs := s.readMs st.n off 1
          readLog := (off, 1) :: st.readLog }) := by
  have h1' : ¬ (s.readRet st.n off 1 ≤ 0) := not_le.mpr h1
  have h1'' : ¬ (s.readRet st.n off 1 < 1) := by omega
  simp only [slowFill, doRead]
  simp [h1', h1'']

/-- When the drive serves every request in full, the slow-verify fill loop
performs exactly one read of the whole window. -/
theorem slowFill_full (s : Session) (off current : Int) (hcur : 1 ≤ current)
    (fuel : Nat) (st : PS)
    (hfull : s.readRet st.n off current = current) :
    slowFill s off current (fuel + 2) 0 0 st =
      (current,
        { st with
          n := st.n + 1
          lastMs := s.readMs st.n off current
          readLog := (off, current) :: st.readLog }) := by
  have hc0 : (0 : Int) < current := by omega
  have h1' : ¬ (current ≤ 0) := by omega
  have h1'' : ¬ (current < current) := by omega
  simp only [slowFill, doRead]
  simp [hfull, h1', h1'', hc0]

/-- A slow confirmation round at probe length `1` after the escalation round
(`i >= 6`): one fill read, one re-read, classification by the re-read's
elapsed time; the ghost `slowRounds` counter is bumped. -/
theorem jloopS_slow1_ok (s : Session) (lastS i : Int) (hi : 6 ≤ i)
    (fuel : Nat) (j off : Int) (st : PS)
    (h1 : 0 < s.readRet st.n off 1)
    (h2 : 0 < s.readRet (st.n + 1) off 1)
    (hm : s.readMs (st.n + 1) off 1 ≠ -1) :
    jloopS s lastS 1 i (fuel + 1) j off st =
      .ok (decide (s.readMs (st.n + 1) off 1 < 9)) off
        { st with
          n := st.n + 2
          lastMs := s.readMs (st.n + 1) off 1
          readLog := (off, 1) :: (off, 1) :: st.readLog
          slowRounds := st.slowRounds + 1 } := by
  have hi5 : (5 : Int) ≤ i := by omega
  have hne5 : i ≠ 5 := by omega
  have h1' : ¬ (s.readRet st.n off 1 ≤ 0) := not_le.mpr h1
  have h2' : ¬ (s.readRet (st.n + 1) off 1 ≤ 0) := not_le.mpr h2
  simp only [jloopS, if_pos hi5, if_neg hne5]
  rw [show (15002 : Nat) = 15000 + 2 by norm_num]
  rw [slowFill_one s off 15000
    { st with slowRounds := st.slowRounds + 1 } h1]
  simp only [doRead]
  simp [h1', h2', hm]

/-- The slow confirmation round `i = 5` at probe length `1`: as
`jloopS_slow1_ok`, and the speed-change attempt is recorded. -/
theorem jloopS_slow1_five (s : Session) (lastS : Int)
    (fuel : Nat) (j off : Int) (st : PS)
    (h1 : 0 < s.readRet st.n off 1)
    (h2 : 0 < s.readRet (st.n + 1) off 1)
    (hm : s.readMs (st.n + 1) off 1 ≠ -1) :
    jloopS s lastS 1 5 (fuel + 1) j off st =
      .ok (decide (s.readMs (st.n + 1) off 1 < 9)) off
        { st with
          n := st.n + 2
          lastMs := s.readMs (st.n + 1) off 1
          readLog := (off, 1) :: (off, 1) :: st.readLog
          speedCalls := st.speedCalls + 1
          slowRounds := st.slowRounds + 1 } := by
  have h1' : ¬ (s.readRet st.n off 1 ≤ 0) := not_le.mpr h1
  have h2' : ¬ (s.readRet (st.n + 1) off 1 ≤ 0) := not_le.mpr h2
  simp only [jloopS, if_pos (le_refl (5 : Int)), if_true]
  rw [show (15002 : Nat) = 15000 + 2 by norm_num]
  rw [slowFill_one s off 15000
    { st with speedCalls := st.speedCalls + 1, slowRounds := st.slowRounds + 1 } h1]
  simp only [doRead]
  simp [h1', h2', hm]

/-- A slow confirmation round (`i >= 6`) at any probe length, for a drive
serving every request in full. -/
theorem jloopS_slowFull_ok (s : Session) (lastS current i : Int) (hi : 6 ≤ i)
    (hcur : 1 ≤ current) (fuel : Nat) (j off : Int) (st : PS)
    (hfull : s.readRet st.n off current = current)
    (h2 : 0 < s.readRet (st.n + 1) off 1)
    (hm : s.readMs (st.n + 1) off 1 ≠ -1) :
    jloopS s lastS current i (fuel + 1) j off st =
      .ok (decide (s.readMs (st.n + 1) off 1 < 9)) off
        { st with
          n := st.n + 2
          lastMs := s.readMs (st.n + 1) off 1
          readLog := (off, 1) :: (off, current) :: st.readLog
          slowRounds := st.slowRounds + 1 } := by
  have hi5 : (5 : Int) ≤ i := by omega
  have hne5 : i ≠ 5 := by omega
  have h1' : ¬ (current ≤ 0) := by omega
  have h2' : ¬ (s.readRet (st.n + 1) off 1 ≤ 0) := not_le.mpr h2
  simp only [jloopS, if_pos hi5, if_neg hne5]
  rw [show (15002 : Nat) = 15000 + 2 by norm_num]
  rw [slowFill_full s off current hcur 15000
    { st with slowRounds := st.slowRounds + 1 } hfull]
  simp only [doRead]
  simp [h1', h2', hm]

/-- The slow confirmation round `i = 5` at any probe length, for a drive
serving every request in full. -/
theorem jloopS_slowFull_five (s : Session) (lastS current : Int)
    (hcur : 1 ≤ current) (fuel : Nat) (j off : Int) (st : PS)
    (hfull : s.readRet st.n off current = current)
    (h2 : 0 < s.readRet (st.n + 1) off 1)
    (hm : s.readMs (st.n + 1) off 1 ≠ -1) :
    jloopS s lastS current 5 (fuel + 1) j off st =
      .ok (decide (s.readMs (st.n + 1) off 1 < 9)) off
        { st with
          n := st.n + 2
          lastMs := s.readMs (st.n + 1) off 1
          readLog := (off, 1) :: (off, current) :: st.readLog
          speedCalls := st.speedCalls + 1
          slowRounds := st.slowRounds + 1 } := by
  have h1' : ¬ (current ≤ 0) := by omega
  have h2' : ¬ (s.readRet (st.n + 1) off 1 ≤ 0) := not_le.mpr h2
  simp only [jloopS, if_pos (le_refl (5 : Int)), if_true]
  rw [show (15002 : Nat) = 15000 + 2 by norm_num]
  rw [slowFill_full s off current hcur 15000
    { st with speedCalls := st.speedCalls + 1, slowRounds := st.slowRounds + 1 } hfull]
  simp only [doRead]
  simp [h1', h2', hm]

/-- A contiguity-check attempt within bounds whose two reads succeed and
whose re-read timing is not the fault sentinel. -/
theorem jloopC_ok (s : Session) (lastS current seekoff : Int)
    (fuel : Nat) (j off : Int) (st : PS)
    (hb : ¬ (off + seekoff > lastS))
    (h1 : 0 < s.readRet st.n (off + seekoff) 1)
    (h2 : 0 < s.readRet (st.n + 1) off 1)
    (hm : s.readMs (st.n + 1) off 1 ≠ -1) :
    jloopC s lastS current seekoff (fuel + 1) j off st =
      .ok (decide (s.readMs (st.n + 1) off 1 < 9)) off
        { st with
          n := st.n + 2
          lastMs := s.readMs (st.n + 1) off 1
          readLog := (off, 1) :: (off + seekoff, 1) :: st.readLog } := by
  have h1' : ¬ (s.readRet st.n (off + seekoff) 1 ≤ 0) := not_le.mpr h1
  have h2' : ¬ (s.readRet (st.n + 1) off 1 ≤ 0) := not_le.mpr h2
  simp only [jloopC, doRead, if_neg hb]
  simp [h1', h2', hm]

/-! ### C3 and C10: the outlier-rejecting statistics -/

/-- C3: the statistic is two-pass: pass one's `sum/(current-1)` and
`sumsq/(current-1) - mean*mean` are the sectors-served-weighted mean and
population variance of per-sector latency over the non-trigger samples;
the retention test is `per <= mean + max(1, 2*stddev)`; pass two sums
exactly the retained samples' latencies and sectors served. -/
theorem C3_two_pass_statistics (n : ℚ) (ls : List (Int × Int)) (hne : ls ≠ [])
    (hpos : ∀ p ∈ ls, (0 : Int) < p.2 ∧ (0 : Int) ≤ p.1)
    (hW : weightSum ls = n) :
    rawMean n ls = specMean ls ∧
    rawVar n ls = specVar ls ∧
    (∀ per : ℚ,
      belowUpper (rawMean n ls) (rawVar n ls) per = true ↔
        (per : ℝ) ≤ specUpperBound ls) ∧
    passTwo n ls
      = (((ls.filter fun p =>
            belowUpper (rawMean n ls) (rawVar n ls) ((p.1 : ℚ) / (p.2 : ℚ))).map
              fun p => (p.1 : ℚ)).sum,
         ((ls.filter fun p =>
            belowUpper (rawMean n ls) (rawVar n ls) ((p.1 : ℚ) / (p.2 : ℚ))).map
              fun p => (p.2 : ℚ)).sum) := by
  have hpos' : ∀ p ∈ ls, (0 : Int) < p.2 := fun p hp => (hpos p hp).1
  have h1 := rawMean_eq_specMean n ls hpos' hW
  have h2 := rawVar_eq_specVar n ls hne hpos' hW
  refine ⟨h1, h2, ?_, passTwo_eq_filter n ls⟩
  intro per
  rw [h1, h2, specUpperBound]
  exact belowUpper_iff_real _ _ per (specVar_nonneg ls hpos')

/-- Witness for C3 at the sample list `[(2,1),(2,1)]` with `n = 2`. -/
theorem C3_two_pass_statistics_witness :
    rawMean 2 [((2 : Int), (1 : Int)), (2, 1)] = specMean [(2, 1), (2, 1)] :=
  (C3_two_pass_statistics 2 [(2, 1), (2, 1)] (by decide) (by decide)
    (by norm_num [weightSum])).1

/-- C10: whenever the non-trigger sample set is nonempty with positive
sectors served and nonnegative (clamped) latencies, and the divisor does not
exceed the total sectors served, at least one sample passes the retention
test, so pass two's `sofar` accumulator (the divisor of `mean /= sofar`) is
positive. -/
theorem C10_passTwo_denominator_pos (n : ℚ) (ls : List (Int × Int))
    (hne : ls ≠ [])
    (hpos : ∀ p ∈ ls, (0 : Int) < p.2 ∧ (0 : Int) ≤ p.1)
    (hn : 0 < n) (hW : n ≤ weightSum ls) :
    0 < (passTwo n ls).2 := by
  obtain ⟨p₀, hp₀⟩ : ∃ m, m ∈ ls.argmin fun p => (p.1 : ℚ) / (p.2 : ℚ) := by
    cases h : ls.argmin fun p => (p.1 : ℚ) / (p.2 : ℚ) with
    | none => exact absurd (List.argmin_eq_none.mp h) hne
    | some m => exact ⟨m, by simp only [Option.mem_def, h]⟩
  have hmem : p₀ ∈ ls := List.argmin_mem hp₀
  have hmin : ∀ p ∈ ls, (p₀.1 : ℚ) / (p₀.2 : ℚ) ≤ (p.1 : ℚ) / (p.2 : ℚ) :=
    fun p hp => List.le_of_mem_argmin hp hp₀
  have hle := min_per_le_rawMean n ls p₀ hmem hmin hpos hn hW
  have hsel :
      belowUpper (rawMean n ls) (rawVar n ls) ((p₀.1 : ℚ) / (p₀.2 : ℚ)) = true := by
    unfold belowUpper
    by_cases hc : rawVar n ls < 0 ∨ 4 * rawVar n ls < 1
    · rw [if_pos hc]
      exact decide_eq_true (by linarith)
    · rw [if_neg hc]
      simp only [Bool.or_eq_true, decide_eq_true_eq]
      exact Or.inl hle
  rw [passTwo_eq_filter]
  have hmemf :
      p₀ ∈ ls.filter fun p =>
        belowUpper (rawMean n ls) (rawVar n ls) ((p.1 : ℚ) / (p.2 : ℚ)) :=
    List.mem_filter.mpr ⟨hmem, hsel⟩
  have hmap : (p₀.2 : ℚ) ∈
      (ls.filter fun p =>
        belowUpper (rawMean n ls) (rawVar n ls) ((p.1 : ℚ) / (p.2 : ℚ))).map
          fun p => (p.2 : ℚ) :=
    List.mem_map_of_mem _ hmemf
  have hnn : ∀ x ∈
      (ls.filter fun p =>
        belowUpper (rawMean n ls) (rawVar n ls) ((p.1 : ℚ) / (p.2 : ℚ))).map
          fun p => (p.2 : ℚ), 0 ≤ x := by
    intro x hx
    obtain ⟨p, hp, rfl⟩ := List.mem_map.mp hx
    have := (hpos p (List.mem_of_mem_filter hp)).1
    positivity
  have hsum := le_sum_of_mem_q hnn hmap
  have hp2 : (0 : ℚ) < (p₀.2 : ℚ) := by exact_mod_cast (hpos p₀ hmem).1
  simpa using lt_of_lt_of_le hp2 hsum

/-- Witness for C10 at the sample list `[(3,1)]` with `n = 1`. -/
theorem C10_passTwo_denominator_pos_witness :
    0 < (passTwo 1 [((3 : Int), (1 : Int))]).2 :=
  C10_passTwo_denominator_pos 1 [(3, 1)] (by decide) (by decide) (by norm_num)
    (by norm_num [weightSum])

/-! ### Round-level lemmas -/

/-- All-miss confirmation rounds at probe length `1`: when every read
succeeds and every elapsed time is at least the 9 ms threshold, the round
loop runs through its remaining budget, classifying every round as a miss,
and returns `under = false`; the ghost counters record the slow rounds and
the single `i = 5` speed change. -/
theorem roundsS_missTail1 (s : Session) (lastS off : Int)
    (hr : ∀ k o l, 0 < s.readRet k o l) :
    ∀ (f : Nat) (i : Int) (st : PS),
      (∀ k o l, st.n ≤ k → 9 ≤ s.readMs k o l) →
      ∃ st', roundsS s lastS 1 f i off st = .done false off st' ∧
        st'.n = st.n + 2 * f ∧
        st'.speedCalls = st.speedCalls + (if i ≤ 5 ∧ 5 < i + (f : Int) then 1 else 0) ∧
        st'.slowRounds = st.slowRounds + ((i + (f : Int)) - max i 5).toNat := by
  intro f
  induction f with
  | zero =>
    intro i st _
    refine ⟨st, rfl, by omega, ?_, ?_⟩
    · rw [if_neg (by omega)]
      omega
    · have : ((i + ((0 : Nat) : Int)) - max i 5).toNat = 0 := by omega
      omega
  | succ f ih =>
    intro i st hm9
    have hmv : 9 ≤ s.readMs (st.n + 1) off 1 := hm9 (st.n + 1) off 1 (by omega)
    have hmne : s.readMs (st.n + 1) off 1 ≠ -1 := by omega
    have hdec : decide (s.readMs (st.n + 1) off 1 < 9) = false :=
      decide_eq_false (not_lt.mpr hmv)
    rcases lt_trichotomy i 5 with hi | hi | hi
    · -- fast round
      have hstep := jloopS_fast_ok s lastS 1 i (not_le.mpr hi) 10 0 off st
        (hr _ _ _) (hr _ _ _) hmne
      obtain ⟨st', h1, h2, h3, h4⟩ := ih (i + 1)
        { st with
          n := st.n + 2
          lastMs := s.readMs (st.n + 1) off 1
          readLog := (off, 1) :: (off + 1 - 1, 1) :: st.readLog }
        (fun k o l hk => hm9 k o l (by simp at hk; omega))
      refine ⟨st', ?_, by simp at h2; omega, ?_, ?_⟩
      · simp only [roundsS]
        rw [hstep, hdec]
        simpa using h1
      · simp only at h3
        rw [h3]
        congr 1
        by_cases hc : i + 1 ≤ 5 ∧ 5 < i + 1 + (f : Int)
        · rw [if_pos hc, if_pos (by omega)]
        · rw [if_neg hc, if_neg (by omega)]
      · simp only at h4
        rw [h4]
        have : max (i + 1) 5 = 5 := by omega
        have h5 : max i 5 = 5 := by omega
        rw [this, h5]
        omega
    · -- the i = 5 escalation round
      subst hi
      have hstep := jloopS_slow1_five s lastS 10 0 off st
        (hr _ _ _) (hr _ _ _) hmne
      obtain ⟨st', h1, h2, h3, h4⟩ := ih 6
        { st with
          n := st.n + 2
          lastMs := s.readMs (st.n + 1) off 1
          readLog := (off, 1) :: (off, 1) :: st.readLog
          speedCalls := st.speedCalls + 1
          slowRounds := st.slowRounds + 1 }
        (fun k o l hk => hm9 k o l (by simp at hk; omega))
      refine ⟨st', ?_, by simp at h2; omega, ?_, ?_⟩
      · simp only [roundsS]
        rw [hstep, hdec]
        simpa using h1
      · simp only at h3
        rw [h3, if_neg (by omega), if_pos (by omega)]
      · simp only at h4
        rw [h4]
        have h6 : max (6 : Int) 5 = 6 := by omega
        have h5 : max (5 : Int) 5 = 5 := by omega
        rw [h6, h5]
        omega
    · -- slow rounds after escalation
      have hstep := jloopS_slow1_ok s lastS i (by omega) 10 0 off st
        (hr _ _ _) (hr _ _ _) hmne
      obtain ⟨st', h1, h2, h3, h4⟩ := ih (i + 1)
        { st with
          n := st.n + 2
          lastMs := s.readMs (st.n + 1) off 1
          readLog := (off, 1) :: (off, 1) :: st.readLog
          slowRounds := st.slowRounds + 1 }
        (fun k o l hk => hm9 k o l (by simp at hk; omega))
      refine ⟨st', ?_, by simp at h2; omega, ?_, ?_⟩
      · simp only [roundsS]
        rw [hstep, hdec]
        simpa using h1
      · simp only at h3
        rw [h3, if_neg (by omega), if_neg (by omega)]
      · simp only at h4
        rw [h4]
        have h6 : max (i + 1) 5 = i + 1 := by omega
        have h5 : max i 5 = i := by omega
        rw [h6, h5]
        omega

/-- All-miss confirmation rounds at any probe length, for a drive serving
every request in full: every round is classified as a miss and the loop
returns `under = false` after its remaining budget, two reads per round. -/
theorem roundsS_missTailFull (s : Session) (lastS current off : Int)
    (hcur : 1 ≤ current)
    (hfull : ∀ k o l, s.readRet k o l = max 1 l) :
    ∀ (f : Nat) (i : Int) (st : PS),
      (∀ k o l, st.n ≤ k → 9 ≤ s.readMs k o l) →
      ∃ st', roundsS s lastS current f i off st = .done false off st' ∧
        st'.n = st.n + 2 * f := by
  have hrpos : ∀ k o l, 0 < s.readRet k o l := fun k o l => by
    rw [hfull]
    exact lt_of_lt_of_le zero_lt_one (le_max_left 1 l)
  have hfull1 : ∀ k o, s.readRet k o current = current := fun k o => by
    rw [hfull]
    omega
  intro f
  induction f with
  | zero => intro i st _; exact ⟨st, rfl, by omega⟩
  | succ f ih =>
    intro i st hm9
    have hmv : 9 ≤ s.readMs (st.n + 1) off 1 := hm9 (st.n + 1) off 1 (by omega)
    have hmne : s.readMs (st.n + 1) off 1 ≠ -1 := by omega
    have hdec : decide (s.readMs (st.n + 1) off 1 < 9) = false :=
      decide_eq_false (not_lt.mpr hmv)
    rcases lt_trichotomy i 5 with hi | hi | hi
    · have hstep := jloopS_fast_ok s lastS current i (not_le.mpr hi) 10 0 off st
        (hrpos _ _ _) (hrpos _ _ _) hmne
      obtain ⟨st', h1, h2⟩ := ih (i + 1)
        { st with
          n := st.n + 2
          lastMs := s.readMs (st.n + 1) off 1
          readLog := (off, 1) :: (off + current - 1, 1) :: st.readLog }
        (fun k o l hk => hm9 k o l (by simp at hk; omega))
      refine ⟨st', ?_, by simp at h2; omega⟩
      simp only [roundsS]
      rw [hstep, hdec]
      simpa using h1
    · subst hi
      have hstep := jloopS_slowFull_five s lastS current hcur 10 0 off st
        (hfull1 _ _) (hrpos _ _ _) hmne
      obtain ⟨st', h1, h2⟩ := ih 6
        { st with
          n := st.n + 2
          lastMs := s.readMs (st.n + 1) off 1
          readLog := (off, 1) :: (off, current) :: st.readLog
          speedCalls := st.speedCalls + 1
          slowRounds := st.slowRounds + 1 }
        (fun k o l hk => hm9 k o l (by simp at hk; omega))
      refine ⟨st', ?_, by simp at h2; omega⟩
      simp only [roundsS]
      rw [hstep, hdec]
      simpa using h1
    · have hstep := jloopS_slowFull_ok s lastS current i (by omega) hcur 10 0 off st
        (hfull1 _ _) (hrpos _ _ _) hmne
      obtain ⟨st', h1, h2⟩ := ih (i + 1)
        { st with
          n := st.n + 2
          lastMs := s.readMs (st.n + 1) off 1
          readLog := (off, 1) :: (off, current) :: st.readLog
          slowRounds := st.slowRounds + 1 }
        (fun k o l hk => hm9 k o l (by simp at hk; omega))
      refine ⟨st', ?_, by simp at h2; omega⟩
      simp only [roundsS]
      rw [hstep, hdec]
      simpa using h1

/-- All-miss contiguity rounds: within bounds, with every read succeeding
and every elapsed time at or above the threshold, the 30-round loop
classifies every round as a miss; the only offsets ever read are the
far offset `off + seekoff` and the test offset `off`. -/
theorem roundsC_allMiss (s : Session) (lastS current seekoff off : Int)
    (hb : ¬ (off + seekoff > lastS))
    (hr : ∀ k o l, 0 < s.readRet k o l) :
    ∀ (f : Nat) (st : PS),
      (∀ k o l, st.n ≤ k → 9 ≤ s.readMs k o l) →
      ∃ st', roundsC s lastS current seekoff f off st = .done false off st' ∧
        st'.n = st.n + 2 * f ∧
        (∀ e ∈ st'.readLog,
          e ∈ st.readLog ∨ e = (off + seekoff, 1) ∨ e = (off, 1)) ∧
        (∀ e ∈ st.readLog, e ∈ st'.readLog) ∧
        (1 ≤ f → (off + seekoff, 1) ∈ st'.readLog) := by
  intro f
  induction f with
  | zero =>
    intro st _
    exact ⟨st, rfl, by omega, fun e he => Or.inl he, fun e he => he, by omega⟩
  | succ f ih =>
    intro st hm9
    have hmv : 9 ≤ s.readMs (st.n + 1) off 1 := hm9 (st.n + 1) off 1 (by omega)
    have hmne : s.readMs (st.n + 1) off 1 ≠ -1 := by omega
    have hdec : decide (s.readMs (st.n + 1) off 1 < 9) = false :=
      decide_eq_false (not_lt.mpr hmv)
    have hstep := jloopC_ok s lastS current seekoff 10 0 off st hb
      (hr _ _ _) (hr _ _ _) hmne
    obtain ⟨st', h1, h2, h3, h4, _⟩ := ih
      { st with
        n := st.n + 2
        lastMs := s.readMs (st.n + 1) off 1
        readLog := (off, 1) :: (off + seekoff, 1) :: st.readLog }
      (fun k o l hk => hm9 k o l (by simp at hk; omega))
    refine ⟨st', ?_, by simp at h2; omega, ?_, ?_, ?_⟩
    · simp only [roundsC]
      rw [hstep, hdec]
      simpa using h1
    · intro e he
      rcases h3 e he with h | h | h
      · simp only [List.mem_cons] at h
        rcases h with rfl | rfl | h
        · exact Or.inr (Or.inr rfl)
        · exact Or.inr (Or.inl rfl)
        · exact Or.inl h
      · exact Or.inr (Or.inl h)
      · exact Or.inr (Or.inr h)
    · intro e he
      exact h4 e (by simp [he])
    · intro _
      exact h4 (off + seekoff, 1) (by simp)

/-- When every round of the cache-size search is a hit, the search climbs
past the `hi = 15000` ceiling and exits with `current = 15001`, having read
(among others) the sector `off + 15000`. -/
theorem searchLoop_allHit (s : Session) (lastS : Int)
    (hr : ∀ k o l, 0 < s.readRet k o l)
    (hm : ∀ k o l, 0 ≤ s.readMs k o l ∧ s.readMs k o l < 9) :
    ∀ (fuel : Nat) (c off : Int) (st : PS), c + (fuel : Int) = 15001 →
      ∃ st', searchLoop s lastS fuel c true off st = .done 15001 off st' ∧
        (∀ e ∈ st.readLog, e ∈ st'.readLog) ∧
        (1 ≤ fuel → (off + 15000, 1) ∈ st'.readLog) := by
  intro fuel
  induction fuel with
  | zero =>
    intro c off st hc
    have : c = 15001 := by omega
    subst this
    exact ⟨st, rfl, fun e he => he, by omega⟩
  | succ fuel ih =>
    intro c off st hc
    have hms := hm (st.n + 1) off 1
    have hmne : s.readMs (st.n + 1) off 1 ≠ -1 := by omega
    have hdec : decide (s.readMs (st.n + 1) off 1 < 9) = true :=
      decide_eq_true hms.2
    have hstep := jloopS_fast_ok s lastS (c + 1) 0 (by norm_num) 10 0 off st
      (hr _ _ _) (hr _ _ _) hmne
    obtain ⟨st', h1, h2, h3⟩ := ih (c + 1) off
      { st with
        n := st.n + 2
        lastMs := s.readMs (st.n + 1) off 1
        readLog := (off, 1) :: (off + (c + 1) - 1, 1) :: st.readLog }
      (by omega)
    have hcond : c ≤ 15000 := by omega
    refine ⟨st', ?_, ?_, ?_⟩
    · have hrounds : roundsS s lastS (c + 1) 15 0 off st = .done true off
          { st with
            n := st.n + 2
            lastMs := s.readMs (st.n + 1) off 1
            readLog := (off, 1) :: (off + (c + 1) - 1, 1) :: st.readLog } := by
        rw [show (15 : Nat) = 14 + 1 by norm_num]
        simp only [roundsS]
        rw [hstep, hdec]
        simp
      simp only [searchLoop]
      rw [hrounds, if_pos (show c ≤ 15000 ∧ True from ⟨hcond, trivial⟩)]
      exact h1
    · intro e he
      exact h2 e (by simp [List.mem_cons]; tauto)
    · intro _
      rcases Nat.eq_zero_or_pos fuel with hf | hf
      · subst hf
        have hc15 : c = 15000 := by omega
        have : (off + (c + 1) - 1, (1 : Int)) ∈ st'.readLog := by
          refine h2 _ ?_
          simp
        have harith : off + (c + 1) - 1 = off + 15000 := by omega
        rwa [harith] at this
      · exact h3 (by omega)

/-- The search loop exits immediately when `under` is false. -/
theorem searchLoop_false (s : Session) (lastS : Int) (fuel : Nat)
    (c off : Int) (st : PS) :
    searchLoop s lastS fuel c false off st = .done c off st := by
  cases fuel with
  | zero => rfl
  | succ fuel => simp [searchLoop]

/-- Entry computation for the short test disc: the longest audio stretch is
`(0, 500)`, the baseline loop is skipped (its window does not fit), and the
run reduces to the cache-size search followed by the verdict phase. -/
theorem discS_run (cm : Int) (rr rm : Nat → Int → Int → Int) :
    analyzeVerify cm (discS rr rm) =
      afterSearch (discS rr rm) cm 500
        (searchLoop (discS rr rm) 500 15001 0 true 0 {}) := rfl

/-- With a synthetic contiguous cache of `C` sectors, every probe length
`L ≤ C` confirms a hit in its first round, so the search climbs to
`L = C + 1`, whose 15 rounds all miss; the search ends at
`current = C + 1` after `2C + 30` reads. -/
theorem cacheSession_search (C : Nat) (hC : C ≤ 100) :
    ∀ (d k : Nat) (st : PS), k + d = C → st.n = 2 * k →
      ∃ st', searchLoop (cacheSession C) 500 (15001 - k) (k : Int) true 0 st =
          .done ((C : Int) + 1) 0 st' ∧ st'.n = 2 * C + 30 := by
  intro d
  induction d with
  | zero =>
    intro k st hk hn
    have hkC : k = C := by omega
    rw [hkC] at hn ⊢
    obtain ⟨f', hf'⟩ : ∃ f', 15001 - C = f' + 1 := ⟨15001 - C - 1, by omega⟩
    rw [hf']
    obtain ⟨st₂, hr2, hn2⟩ := roundsS_missTailFull (cacheSession C) 500
      ((C : Int) + 1) 0 (by omega) (fun _ _ _ => rfl) 15 0 st
      (by
        intro k' o l hk'
        show 9 ≤ (if k' % 2 = 1 ∧ k' < 2 * C then (1 : Int) else 100)
        rw [if_neg (by omega)]
        norm_num)
    refine ⟨st₂, ?_, by omega⟩
    simp only [searchLoop]
    rw [hr2, if_pos (show (C : Int) ≤ 15000 ∧ True from ⟨by omega, trivial⟩)]
    exact searchLoop_false _ _ _ _ _ _
  | succ d ih =>
    intro k st hk hn
    have hkC : k < C := by omega
    obtain ⟨f', hf'⟩ : ∃ f', 15001 - k = f' + 1 := ⟨15001 - k - 1, by omega⟩
    rw [hf']
    have hms : (cacheSession C).readMs (st.n + 1) 0 1 = 1 := by
      show (if (st.n + 1) % 2 = 1 ∧ st.n + 1 < 2 * C then (1 : Int) else 100) = 1
      rw [if_pos ⟨by omega, by omega⟩]
    have hmne : (cacheSession C).readMs (st.n + 1) 0 1 ≠ -1 := by
      rw [hms]; norm_num
    have hdec : decide ((cacheSession C).readMs (st.n + 1) 0 1 < 9) = true := by
      rw [hms]; decide
    have hrpos : ∀ k' o l, 0 < (cacheSession C).readRet k' o l := fun k' o l =>
      lt_of_lt_of_le zero_lt_one (le_max_left 1 l)
    have hstep := jloopS_fast_ok (cacheSession C) 500 ((k : Int) + 1) 0
      (by norm_num) 10 0 0 st (hrpos _ _ _) (hrpos _ _ _) hmne
    have hrounds : roundsS (cacheSession C) 500 ((k : Int) + 1) 15 0 0 st =
        .done true 0
          { st with
            n := st.n + 2
            lastMs := (cacheSession C).readMs (st.n + 1) 0 1
            readLog := (0, 1) :: (0 + ((k : Int) + 1) - 1, 1) :: st.readLog } := by
      rw [show (15 : Nat) = 14 + 1 by norm_num]
      simp only [roundsS]
      rw [hstep, hdec]
      simp
    obtain ⟨st', h1, h2⟩ := ih (k + 1)
      { st with
        n := st.n + 2
        lastMs := (cacheSession C).readMs (st.n + 1) 0 1
        readLog := (0, 1) :: (0 + ((k : Int) + 1) - 1, 1) :: st.readLog }
      (by omega) (by simp; omega)
    refine ⟨st', ?_, h2⟩
    simp only [searchLoop]
    rw [hrounds, if_pos (show (k : Int) ≤ 15000 ∧ True from ⟨by omega, trivial⟩)]
    have hcast : ((k : Int) + 1) = ((k + 1 : Nat) : Int) := by push_cast; ring
    have hfuel : f' = 15001 - (k + 1) := by omega
    rw [hcast, hfuel]
    exact h1

/-! ### C1 and C2: round classification in the cache-size search -/

/-- C1 counterexample: at this session the first confirmation round at probe
length 1 misses and the second hits.  Were a non-hit round enough to accept
`L` as the boundary, the search would stop at `L = 1` and report no cache
(size 0); the code instead continues the round budget, increments `L` on the
round-2 hit, and reports cache size 1. -/
theorem C1_counterexample :
    (analyzeVerify 1200 missThenHitS).size = some 1 ∧
    (analyzeVerify 1200 missThenHitS).noCache = false := by decide

/-- C1 amended: a round is a hit exactly when the re-read's elapsed time is
strictly below 9 ms; a hit ends the round budget at once and increments `L`;
`L` is accepted as the boundary (cache size `L - 1`) only when all 15 rounds
miss.  Consequently, a synthetic contiguous cache of `C` sectors
(`1 ≤ C ≤ 100`) is reported as having cache size exactly `C`, with the
clean exit code 0. -/
theorem C1_amended_hit_increments (C : Nat) (hC1 : 1 ≤ C) (hC : C ≤ 100) :
    (analyzeVerify 1200 (cacheSession C)).size = some (C : Int) ∧
    (analyzeVerify 1200 (cacheSession C)).code = 0 := by
  obtain ⟨st', hs, hn⟩ := cacheSession_search C hC C 0 {} (by omega) rfl
  rw [Nat.sub_zero, Nat.cast_zero] at hs
  have hrun : analyzeVerify 1200 (cacheSession C) =
      afterSearch (cacheSession C) 1200 500
        (searchLoop (cacheSession C) 500 15001 0 true 0 {}) := rfl
  rw [hrun, hs]
  simp only [afterSearch]
  rw [if_neg (show ¬ ((C : Int) + 1 = 15000) by omega),
    if_pos (show ((C : Int) + 1 > 1) by omega)]
  obtain ⟨st'', hcont, hn2, _, _, _⟩ := roundsC_allMiss (cacheSession C) 500
    ((C : Int) + 1) (((C : Int) + 1) * 3) 0
    (by omega)
    (fun k o l => lt_of_lt_of_le zero_lt_one (le_max_left 1 l))
    30 st'
    (by
      intro k o l hk
      show 9 ≤ (if k % 2 = 1 ∧ k < 2 * C then (1 : Int) else 100)
      rw [if_neg (by omega)]
      norm_num)
  rw [hcont]
  have hexc : decide ((C : Int) + 1 - 1 > 1200) = false :=
    decide_eq_false (by omega)
  refine ⟨?_, ?_⟩
  · show some ((C : Int) + 1 - 1) = some (C : Int)
    rw [add_sub_cancel_right]
  · show (if (decide ((C : Int) + 1 - 1 > 1200) || false) = true then (1 : Int) else 0) = 0
    rw [hexc]
    rfl

/-- C2 counterexample: at the all-miss session (simulated cache size 0) the
probe does return 0, but the 15-round budget at `L = 1` includes the ten
reduced-speed slow-verify rounds, so the slow-confirmation branch is
entered (and the speed change is attempted once). -/
theorem C2_counterexample :
    (analyzeVerify 1200 allMissS).code = 0 ∧
    (analyzeVerify 1200 allMissS).st.slowRounds = 10 ∧
    (analyzeVerify 1200 allMissS).st.speedCalls = 1 := by decide

/-- C2 amended: for every session on the short test disc in which every read
succeeds and every elapsed time is at least 9 ms (every re-read a miss), the
search returns the no-cache verdict (code 0, no size report) — but only
after running all 15 rounds at `L = 1`, including the ten slow-confirmation
rounds and the one speed-change attempt. -/
theorem C2_amended_nocache_slow (cm : Int) (rr rm : Nat → Int → Int → Int)
    (hr : ∀ k o l, 0 < rr k o l) (hm : ∀ k o l, 9 ≤ rm k o l) :
    (analyzeVerify cm (discS rr rm)).code = 0 ∧
    (analyzeVerify cm (discS rr rm)).noCache = true ∧
    (analyzeVerify cm (discS rr rm)).size = none ∧
    (analyzeVerify cm (discS rr rm)).st.speedCalls = 1 ∧
    (analyzeVerify cm (discS rr rm)).st.slowRounds = 10 := by
  obtain ⟨st', h1, h2, h3, h4⟩ := roundsS_missTail1 (discS rr rm) 500 0 hr 15 0 {}
    (fun k o l _ => hm k o l)
  have hsearch : searchLoop (discS rr rm) 500 15001 0 true 0 {} =
      .done 1 0 st' := by
    obtain ⟨f, hf⟩ : ∃ f : Nat, 15001 = f + 1 := ⟨15000, rfl⟩
    rw [hf]
    simp only [searchLoop, zero_add]
    rw [h1, if_pos (show (0 : Int) ≤ 15000 ∧ True from ⟨by norm_num, trivial⟩)]
    exact searchLoop_false _ _ _ _ _ _
  rw [discS_run, hsearch]
  simp only [afterSearch]
  rw [if_neg (by norm_num : ¬ ((1 : Int) = 15000)),
    if_neg (by norm_num : ¬ ((1 : Int) > 1))]
  have hsc : st'.speedCalls = 1 := by
    rw [h3, if_pos (show (0 : Int) ≤ 5 ∧ 5 < 0 + ((15 : Nat) : Int) from
      ⟨by norm_num, by norm_num⟩)]
  have hsl : st'.slowRounds = 10 := by
    rw [h4]
    have h10 : ((0 : Int) + ((15 : Nat) : Int) - max 0 5).toNat = 10 := by decide
    rw [h10]
  exact ⟨rfl, rfl, rfl, hsc, hsl⟩

/-- Range of the cache-size search: from any state it either aborts fatally
or exits with `current` between its entry value and entry value plus fuel;
when the loop condition holds at entry it runs at least one iteration. -/
theorem searchLoop_range (s : Session) (lastS : Int) :
    ∀ (fuel : Nat) (c : Int) (u : Bool) (off : Int) (st : PS),
      (∃ st', searchLoop s lastS fuel c u off st = .fatal st') ∨
      (∃ c' off' st', searchLoop s lastS fuel c u off st = .done c' off' st' ∧
        c ≤ c' ∧ c' ≤ c + (fuel : Int) ∧
        (u = true → c ≤ 15000 → 1 ≤ fuel → c + 1 ≤ c')) := by
  intro fuel
  induction fuel with
  | zero =>
    intro c u off st
    exact Or.inr ⟨c, off, st, rfl, le_refl c, by omega, by omega⟩
  | succ fuel ih =>
    intro c u off st
    by_cases hcond : c ≤ 15000 ∧ u = true
    · rw [searchLoop, if_pos hcond]
      cases hrounds : roundsS s lastS (c + 1) 15 0 off st with
      | fatal st₂ => exact Or.inl ⟨st₂, by simp only [hrounds]⟩
      | done u₂ off₂ st₂ =>
        rcases ih (c + 1) u₂ off₂ st₂ with ⟨st', h⟩ | ⟨c', off', st', h, hc1, hc2, _⟩
        · exact Or.inl ⟨st', by simp only [hrounds]; exact h⟩
        · exact Or.inr ⟨c', off', st',
            by simp only [hrounds]; exact h, by omega, by omega, fun _ _ _ => by omega⟩
    · rw [searchLoop, if_neg hcond]
      refine Or.inr ⟨c, off, st, rfl, le_refl c, by omega, ?_⟩
      intro hu h15 _
      exact absurd ⟨h15, hu⟩ hcond

/-- The five shapes `paranoia_analyze_verify` can produce: a fatal abort, the
cannot-determine warning, the no-cache report, a fatal abort after a cache
size was reported, or a full run reporting a cache size with the
exceeds-model and contiguity flags deciding the final `warn` code. -/
theorem analyzeVerify_cases (cm : Int) (s : Session) :
    (∃ st, analyzeVerify cm s = { code := -1, st := st }) ∨
    (∃ st, analyzeVerify cm s = { code := 1, indet := true, st := st }) ∨
    (∃ st, analyzeVerify cm s = { code := 0, noCache := true, st := st }) ∨
    (∃ k st ex, 1 ≤ k ∧ k ≤ 15000 ∧
      analyzeVerify cm s =
        { code := -1, size := some k, exceeds := ex, st := st }) ∨
    (∃ k st ex un, 1 ≤ k ∧ k ≤ 15000 ∧
      analyzeVerify cm s =
        { code := if ex || un then 1 else 0, size := some k, exceeds := ex,
          noncontig := some un, st := st }) := by
  unfold analyzeVerify
  by_cases hfl : (longestStretch s).1 = -1
  · rw [if_pos hfl]
    exact Or.inl ⟨{}, rfl⟩
  · rw [if_neg hfl]
    cases hbase : baseLoop s (longestStretch s).1
        (((longestStretch s).2 - (longestStretch s).1 - 1000 - 1 -
          (longestStretch s).1 + 2).toNat)
        ((longestStretch s).2 - (longestStretch s).1 - 1000 - 1) false 0 0 {} with
    | fatal st => exact Or.inl ⟨st, by simp only [hbase]⟩
    | ok st =>
      simp only [hbase]
      rcases searchLoop_range s (longestStretch s).2 15001 0 true
          (longestStretch s).1 st with ⟨st', heq⟩ | ⟨c', off', st', heq, hc1, hc2, hc3⟩
      · rw [heq]
        exact Or.inl ⟨st', rfl⟩
      · rw [heq]
        have hc1' : 1 ≤ c' := hc3 rfl (by norm_num) (by norm_num)
        simp only [afterSearch]
        by_cases h15 : c' = 15000
        · rw [if_pos h15]
          exact Or.inr (Or.inl ⟨st', rfl⟩)
        · rw [if_neg h15]
          by_cases h1 : c' > 1
          · rw [if_pos h1]
            cases hcont : roundsC s (longestStretch s).2 c' (c' * 3) 30 off' st' with
            | fatal st₂ =>
              exact Or.inr (Or.inr (Or.inr (Or.inl
                ⟨c' - 1, st₂, decide (c' - 1 > cm), by omega, by omega, rfl⟩)))
            | done un off₂ st₂ =>
              exact Or.inr (Or.inr (Or.inr (Or.inr
                ⟨c' - 1, st₂, decide (c' - 1 > cm), un, by omega, by omega, rfl⟩)))
          · rw [if_neg h1]
            exact Or.inr (Or.inr (Or.inl ⟨st', rfl⟩))

/-! ### C4, C5, C9: termination, verdicts and bounds -/

/-- With the all-hit drive on the short disc, the search climbs to
`current = 15001`; since `15001 ≠ hi` the code falls into the
size-reporting branch (size 15000) and the contiguity phase immediately
aborts for lack of space.  Among the fill reads is one at sector 15000,
far beyond the last sector 500. -/
theorem bigCacheS_run :
    ∃ st', analyzeVerify 1200 bigCacheS =
      { code := -1, size := some 15000, exceeds := true, st := st' } ∧
      ((15000 : Int), (1 : Int)) ∈ st'.readLog := by
  obtain ⟨st', heq, hsub, hmem⟩ := searchLoop_allHit bigCacheS 500
    (fun k o l => lt_of_lt_of_le zero_lt_one (le_max_left 1 l))
    (fun k o l => ⟨by show (0 : Int) ≤ 1; norm_num, by show (1 : Int) < 9; norm_num⟩)
    15001 0 0 {} (by norm_num)
  refine ⟨st', ?_, by simpa using hmem (by norm_num)⟩
  have hrun : analyzeVerify 1200 bigCacheS =
      afterSearch bigCacheS 1200 500
        (searchLoop bigCacheS 500 15001 0 true 0 {}) := discS_run 1200 _ _
  rw [hrun, heq]
  simp only [afterSearch]
  rw [if_neg (by norm_num : ¬ ((15001 : Int) = 15000)),
    if_pos (by norm_num : (15001 : Int) > 1)]
  have hjc : jloopC bigCacheS 500 15001 (15001 * 3) 11 0 0 st' = .fatal st' := by
    obtain ⟨g, hg⟩ : ∃ g : Nat, 11 = g + 1 := ⟨10, rfl⟩
    rw [hg]
    simp only [jloopC]
    rw [if_pos (by norm_num : (0 : Int) + 15001 * 3 > 500)]
  have hcont : roundsC bigCacheS 500 15001 (15001 * 3) 30 0 st' = .fatal st' := by
    obtain ⟨g, hg⟩ : ∃ g : Nat, 30 = g + 1 := ⟨29, rfl⟩
    rw [hg]
    simp only [roundsC]
    rw [hjc]
  rw [hcont]
  rfl

/-- C4 counterexample: on the all-hit drive the probe length does exceed the
ceiling (`current` leaves the loop at 15001), but the verdict is not the
cannot-determine warning with return code 1: since the `current == hi` test
compares against exactly 15000, the run reports cache size 15000 and then
aborts with -1 in the contiguity phase. -/
theorem C4_counterexample :
    (analyzeVerify 1200 bigCacheS).code = -1 ∧
    (analyzeVerify 1200 bigCacheS).size = some 15000 ∧
    (analyzeVerify 1200 bigCacheS).indet = false := by
  obtain ⟨st', he, _⟩ := bigCacheS_run
  rw [he]
  exact ⟨rfl, rfl, rfl⟩

/-- C4 amended: from its entry state the search loop either aborts fatally
or exits with `1 ≤ current ≤ 15001`; the cannot-determine verdict (code 1,
no size) is produced exactly by the `current = 15000` exit, the no-cache
verdict (code 0, no size) by `current = 1`, and any reported size lies in
`[1, 15000]`. -/
theorem C4_amended (s : Session) (cm lastS off : Int) (st : PS) :
    ((∃ st', searchLoop s lastS 15001 0 true off st = .fatal st') ∨
     (∃ c' off' st', searchLoop s lastS 15001 0 true off st = .done c' off' st' ∧
        1 ≤ c' ∧ c' ≤ 15001)) ∧
    ((analyzeVerify cm s).indet = true →
      (analyzeVerify cm s).code = 1 ∧ (analyzeVerify cm s).size = none) ∧
    ((analyzeVerify cm s).noCache = true →
      (analyzeVerify cm s).code = 0 ∧ (analyzeVerify cm s).size = none) ∧
    (∀ k, (analyzeVerify cm s).size = some k → 1 ≤ k ∧ k ≤ 15000) := by
  refine ⟨?_, ?_, ?_, ?_⟩
  · rcases searchLoop_range s lastS 15001 0 true off st with
      ⟨st', h⟩ | ⟨c', off', st', h, h1, h2, h3⟩
    · exact Or.inl ⟨st', h⟩
    · exact Or.inr ⟨c', off', st', h,
        h3 rfl (by norm_num) (by norm_num), by omega⟩
  · intro h
    rcases analyzeVerify_cases cm s with ⟨st₀, he⟩ | ⟨st₀, he⟩ | ⟨st₀, he⟩ |
        ⟨k₀, st₀, ex, hk1, hk2, he⟩ | ⟨k₀, st₀, ex, un, hk1, hk2, he⟩ <;>
      rw [he] at h ⊢ <;> simp_all
  · intro h
    rcases analyzeVerify_cases cm s with ⟨st₀, he⟩ | ⟨st₀, he⟩ | ⟨st₀, he⟩ |
        ⟨k₀, st₀, ex, hk1, hk2, he⟩ | ⟨k₀, st₀, ex, un, hk1, hk2, he⟩ <;>
      rw [he] at h ⊢ <;> simp_all
  · intro k h
    rcases analyzeVerify_cases cm s with ⟨st₀, he⟩ | ⟨st₀, he⟩ | ⟨st₀, he⟩ |
        ⟨k₀, st₀, ex, hk1, hk2, he⟩ | ⟨k₀, st₀, ex, un, hk1, hk2, he⟩ <;>
      rw [he] at h <;> simp_all

/-- Witness for C4's verdict mapping at the all-miss session. -/
theorem C4_amended_witness :
    (analyzeVerify 1200 allMissS).code = 0 ∧
    (analyzeVerify 1200 allMissS).size = none :=
  (C4_amended allMissS 1200 500 0 {}).2.2.1 (by decide)

/-- C5 counterexample: a drive with a small in-model contiguous cache is a
"cache detected" run, yet the final code is 0 (`warn` stays 0) — the same
value as the no-cache verdict — so 0 does not mean "no cache detected". -/
theorem C5_counterexample :
    (analyzeVerify 1200 (cacheSession 1)).code = 0 ∧
    (analyzeVerify 1200 (cacheSession 1)).size = some 1 ∧
    (analyzeVerify 1200 (cacheSession 1)).noCache = false := by decide

/-- C5 amended: the return code is always -1, 0 or 1; 0 is returned both
for the no-cache verdict and for a detected cache that is within the model
and tests contiguous; 1 is returned exactly for the cannot-determine
verdict or a detected cache with the exceeds-model or non-contiguous
warning. -/
theorem C5_amended (cm : Int) (s : Session) :
    ((analyzeVerify cm s).code = -1 ∨ (analyzeVerify cm s).code = 0 ∨
      (analyzeVerify cm s).code = 1) ∧
    ((analyzeVerify cm s).code = 0 →
      (analyzeVerify cm s).noCache = true ∨
        ((analyzeVerify cm s).noncontig = some false ∧
         (analyzeVerify cm s).exceeds = false ∧
         ∃ k, (analyzeVerify cm s).size = some k)) ∧
    ((analyzeVerify cm s).code = 1 →
      (analyzeVerify cm s).indet = true ∨ (analyzeVerify cm s).exceeds = true ∨
        (analyzeVerify cm s).noncontig = some true) := by
  rcases analyzeVerify_cases cm s with ⟨st₀, he⟩ | ⟨st₀, he⟩ | ⟨st₀, he⟩ |
      ⟨k₀, st₀, ex, hk1, hk2, he⟩ | ⟨k₀, st₀, ex, un, hk1, hk2, he⟩ <;>
    rw [he] <;> clear he
  · exact ⟨Or.inl rfl, by simp, by simp⟩
  · exact ⟨Or.inr (Or.inr rfl), by simp, by simp⟩
  · exact ⟨Or.inr (Or.inl rfl), by simp, by simp⟩
  · exact ⟨Or.inl rfl, by simp, by simp⟩
  · cases ex <;> cases un <;> simp

/-- Witness for C5's code-0 characterization at the small-cache session. -/
theorem C5_amended_witness :
    (analyzeVerify 1200 (cacheSession 1)).noCache = true ∨
      ((analyzeVerify 1200 (cacheSession 1)).noncontig = some false ∧
       (analyzeVerify 1200 (cacheSession 1)).exceeds = false ∧
       ∃ k, (analyzeVerify 1200 (cacheSession 1)).size = some k) :=
  (C5_amended 1200 (cacheSession 1)).2.1 (by decide)

/-- C9 counterexample: on the all-hit drive the search's success path issues
a fill read at sector 15000 although the disc's last sector is 500 — probe
offsets are not kept within the disc range on the success path. -/
theorem C9_counterexample :
    ((15000 : Int), (1 : Int)) ∈ (analyzeVerify 1200 bigCacheS).st.readLog ∧
    ¬ ((15000 : Int) + 1 ≤ 500) := by
  obtain ⟨st', he, hmem⟩ := bigCacheS_run
  rw [he]
  exact ⟨hmem, by norm_num⟩

/-- C9 amended: the bound `offset + length ≤ lastsector` is enforced
fatally (never retried) at exactly two places: in the search phase the
relocated window is checked after a failed read pair, and in the contiguity
phase the far offset is checked before every attempt (the latter aborts
without issuing any read). -/
theorem C9_amended (s : Session) (lastS current i : Int) (hi : ¬ 5 ≤ i)
    (fuel : Nat) (j off seekoff : Int) (st stc : PS) (jc : Int) :
    ((s.readRet st.n (off + current - 1) 1 ≤ 0 ∨
        s.readRet (st.n + 1) off 1 ≤ 0) →
      off + current + 100 + current > lastS →
      ∃ st', jloopS s lastS current i (fuel + 1) j off st = .fatal st') ∧
    (off + seekoff > lastS →
      jloopC s lastS current seekoff (fuel + 1) jc off stc = .fatal stc) := by
  constructor
  · intro herr hb
    refine ⟨{ st with
      n := st.n + 2
      lastMs := s.readMs (st.n + 1) off 1
      readLog := (off, 1) :: (off + current - 1, 1) :: st.readLog }, ?_⟩
    simp only [jloopS, doRead, if_neg hi]
    rw [if_pos herr, if_pos (Or.inr hb)]
  · intro hb
    simp only [jloopC]
    rw [if_pos hb]

/-- Witness for C9's fatal out-of-space check at concrete arguments. -/
theorem C9_amended_witness :
    jloopC allMissS 500 2 6 1 0 496 ({} : PS) = .fatal ({} : PS) :=
  (C9_amended allMissS 500 2 0 (by norm_num) 0 0 496 6 ({} : PS) ({} : PS) 0).2
    (by norm_num)

/-! ### C6, C7, C8: fault handling and the contiguity probe -/

/-- A fast confirmation round whose two reads succeed but whose re-read
elapsed time is the `-1` fault sentinel aborts fatally, right after the
two reads. -/
theorem jloopS_fast_timingFatal (s : Session) (lastS current i : Int)
    (hi : ¬ 5 ≤ i) (fuel : Nat) (j off : Int) (st : PS)
    (h1 : 0 < s.readRet st.n (off + current - 1) 1)
    (h2 : 0 < s.readRet (st.n + 1) off 1)
    (hm : s.readMs (st.n + 1) off 1 = -1) :
    jloopS s lastS current i (fuel + 1) j off st =
      .fatal { st with
        n := st.n + 2
        lastMs := s.readMs (st.n + 1) off 1
        readLog := (off, 1) :: (off + current - 1, 1) :: st.readLog } := by
  have h1' : ¬ (s.readRet st.n (off + current - 1) 1 ≤ 0) := not_le.mpr h1
  have h2' : ¬ (s.readRet (st.n + 1) off 1 ≤ 0) := not_le.mpr h2
  simp only [jloopS, doRead, if_neg hi]
  simp [h1', h2', hm]

/-- C6 counterexample: a session whose very first (fill) read reports the
`-1` elapsed-time sentinel.  The probe does not abort: only the re-read's
elapsed time feeds the decision check, so the run completes normally with
code 0 after all 30 reads. -/
theorem C6_counterexample :
    fillFaultS.readMs 0 0 1 = -1 ∧
    (analyzeVerify 1200 fillFaultS).code = 0 ∧
    (analyzeVerify 1200 fillFaultS).st.n = 30 := by decide

/-- C6 amended: a `-1` elapsed time observed at the decision point — after
a successful fill/re-read pair — aborts the whole probe with -1
immediately, no further reads being issued (the final read count is the two
reads of that round); elapsed-time faults of fill reads, by contrast, are
never examined (see the counterexample). -/
theorem C6_amended (cm : Int) (rr rm : Nat → Int → Int → Int)
    (hr : ∀ k o l, 0 < rr k o l) (hm1 : rm 1 0 1 = -1) :
    (analyzeVerify cm (discS rr rm)).code = -1 ∧
    (analyzeVerify cm (discS rr rm)).st.n = 2 := by
  have hstep := jloopS_fast_timingFatal (discS rr rm) 500 1 0 (by norm_num)
    10 0 0 {} (hr _ _ _) (hr _ _ _) hm1
  have hsearch : searchLoop (discS rr rm) 500 15001 0 true 0 {} =
      .fatal { n := 2
               lastMs := rm 1 0 1
               readLog := [(0, 1), (0 + 1 - 1, 1)]
               speedCalls := 0
               slowRounds := 0 } := by
    obtain ⟨f, hf⟩ : ∃ f : Nat, 15001 = f + 1 := ⟨15000, rfl⟩
    rw [hf]
    simp only [searchLoop, zero_add]
    rw [if_pos (show (0 : Int) ≤ 15000 ∧ True from ⟨by norm_num, trivial⟩)]
    obtain ⟨g, hg⟩ : ∃ g : Nat, 15 = g + 1 := ⟨14, rfl⟩
    rw [hg]
    simp only [roundsS]
    rw [hstep]
    rfl
  rw [discS_run, hsearch]
  exact ⟨rfl, rfl⟩

/-- Witness for C6 at a concrete timing-fault session. -/
theorem C6_amended_witness :
    (analyzeVerify 1200 (discS (fun _ _ l => max 1 l)
        (fun k _ _ => if k = 1 then -1 else 100))).code = -1 ∧
    (analyzeVerify 1200 (discS (fun _ _ l => max 1 l)
        (fun k _ _ => if k = 1 then -1 else 100))).st.n = 2 :=
  C6_amended 1200 _ _
    (fun k o l => lt_of_lt_of_le zero_lt_one (le_max_left 1 l)) (by norm_num)

/-- C7 counterexample: a session whose very first read returns the `-404`
device-fatal sentinel.  The search phase has no `-404` test: the error is
treated as an ordinary failed read, the test offset is relocated by
`current + 100` (to 101) and probing continues to a normal code-0
finish — the probe neither aborts with -1 nor refrains from relocating. -/
theorem C7_counterexample :
    search404S.readRet 0 0 1 = -404 ∧
    (analyzeVerify 1200 search404S).code = 0 ∧
    (analyzeVerify 1200 search404S).st.n = 32 ∧
    ((101 : Int), (1 : Int)) ∈ (analyzeVerify 1200 search404S).st.readLog := by
  decide

/-- C7 amended: the `-404` sentinel aborts the probe immediately only in the
baseline phase (its sampling loop returns fatal right after the offending
read); in the cache-size search a non-positive read return — `-404`
included — takes the ordinary relocate-and-retry path. -/
theorem C7_amended :
    (∀ (s : Session) (offset : Int) (fuel : Nat) (sofar : Int) (i : Nat)
        (acc : List (Int × Int)) (st : PS),
      sofar < 1000 →
      s.readRet st.n (offset + sofar) (if i = 0 then 1 else 1000 - sofar) = -404 →
      ∃ st', sampleLoop s offset (fuel + 1) sofar i acc st = .fatal st' ∧
        st'.n = st.n + 1) ∧
    (∀ (s : Session) (lastS current i : Int), ¬ 5 ≤ i →
      ∀ (fuel : Nat) (j off : Int) (st : PS),
      s.readRet st.n (off + current - 1) 1 = -404 →
      ¬ (j = 10 ∨ off + current + 100 + current > lastS) →
      jloopS s lastS current i (fuel + 1) j off st =
        jloopS s lastS current i fuel (j + 1) (off + current + 100)
          { st with
            n := st.n + 2
            lastMs := s.readMs (st.n + 1) off 1
            readLog := (off, 1) :: (off + current - 1, 1) :: st.readLog }) := by
  constructor
  · intro s offset fuel sofar i acc st hlt h404
    refine ⟨{ st with
      n := st.n + 1
      lastMs := s.readMs st.n (offset + sofar) (if i = 0 then 1 else 1000 - sofar)
      readLog := (offset + sofar, if i = 0 then 1 else 1000 - sofar) :: st.readLog },
      ?_, rfl⟩
    simp only [sampleLoop, doRead, if_pos hlt]
    rw [if_pos (show s.readRet st.n (offset + sofar)
        (if i = 0 then 1 else 1000 - sofar) ≤ 0 by rw [h404]; norm_num)]
    rw [if_pos h404]
  · intro s lastS current i hi fuel j off st h404 hnot
    simp only [jloopS, doRead, if_neg hi]
    rw [if_pos (Or.inl (show s.readRet st.n (off + current - 1) 1 ≤ 0 by
      rw [h404]; norm_num))]
    rw [if_neg hnot]

/-- Witness for C7's immediate baseline abort at a concrete session. -/
theorem C7_amended_witness :
    ∃ st', sampleLoop search404S 0 1 0 0 [] ({} : PS) = .fatal st' ∧
      st'.n = ({} : PS).n + 1 :=
  C7_amended.1 search404S 0 0 0 0 [] ({} : PS) (by norm_num) (by decide)

/-- A drive like `cacheSession 1` whose cache also spuriously answers the
far-offset contiguity probe: the re-read of the first contiguity round
(op 33) is a hit, so the cache tests as non-contiguous. -/
def noncontigS : Session :=
  discS (fun _ _ l => max 1 l) (fun k _ _ => if k = 1 ∨ k = 33 then 1 else 100)

/-- C8 counterexample: with discovered cache size `S = 1` the contiguity
phase reads the far offset `6 = 3*(S+1)` — never the claimed `3*S = 3`. -/
theorem C8_counterexample :
    ((6 : Int), (1 : Int)) ∈ (analyzeVerify 1200 (cacheSession 1)).st.readLog ∧
    ((3 : Int), (1 : Int)) ∉ (analyzeVerify 1200 (cacheSession 1)).st.readLog := by
  decide

/-- C8 amended: the contiguity verifier probes the offset `3 * current`
sectors ahead of the test offset, where `current = S + 1` is the boundary
probe length (`S` the reported cache size): for the synthetic cache of size
`C` the far reads land on `3*(C+1)`; a hit in the first round ends the
30-round budget at once with the non-contiguous flag, and a non-contiguous
result always returns code 1. -/
theorem C8_amended :
    (∀ C : Nat, 1 ≤ C → C ≤ 100 →
      ((((C : Int) + 1) * 3, (1 : Int)) ∈
        (analyzeVerify 1200 (cacheSession C)).st.readLog)) ∧
    (∀ (s : Session) (lastS current off : Int) (st : PS),
      ¬ (off + current * 3 > lastS) →
      0 < s.readRet st.n (off + current * 3) 1 →
      0 < s.readRet (st.n + 1) off 1 →
      0 ≤ s.readMs (st.n + 1) off 1 →
      s.readMs (st.n + 1) off 1 < 9 →
      ∃ st', roundsC s lastS current (current * 3) 30 off st =
        .done true off st' ∧ st'.n = st.n + 2) ∧
    (∀ (cm : Int) (s : Session),
      (analyzeVerify cm s).noncontig = some true → (analyzeVerify cm s).code = 1) := by
  refine ⟨?_, ?_, ?_⟩
  · intro C hC1 hC
    obtain ⟨st', hs, hn⟩ := cacheSession_search C hC C 0 {} (by omega) rfl
    rw [Nat.sub_zero, Nat.cast_zero] at hs
    have hrun : analyzeVerify 1200 (cacheSession C) =
        afterSearch (cacheSession C) 1200 500
          (searchLoop (cacheSession C) 500 15001 0 true 0 {}) := discS_run 1200 _ _
    rw [hrun, hs]
    simp only [afterSearch]
    rw [if_neg (show ¬ ((C : Int) + 1 = 15000) by omega),
      if_pos (show ((C : Int) + 1 > 1) by omega)]
    obtain ⟨st'', hcont, _, _, _, hmem⟩ := roundsC_allMiss (cacheSession C) 500
      ((C : Int) + 1) (((C : Int) + 1) * 3) 0
      (by omega)
      (fun k o l => lt_of_lt_of_le zero_lt_one (le_max_left 1 l))
      30 st'
      (by
        intro k o l hk
        show 9 ≤ (if k % 2 = 1 ∧ k < 2 * C then (1 : Int) else 100)
        rw [if_neg (by omega)]
        norm_num)
    rw [hcont]
    have := hmem (by norm_num)
    simpa using this
  · intro s lastS current off st hb hr1 hr2 hm0 hm9
    have hmne : s.readMs (st.n + 1) off 1 ≠ -1 := by omega
    have hdec : decide (s.readMs (st.n + 1) off 1 < 9) = true := decide_eq_true hm9
    have hstep := jloopC_ok s lastS current (current * 3) 10 0 off st hb hr1 hr2 hmne
    refine ⟨{ st with
      n := st.n + 2
      lastMs := s.readMs (st.n + 1) off 1
      readLog := (off, 1) :: (off + current * 3, 1) :: st.readLog }, ?_, rfl⟩
    obtain ⟨g, hg⟩ : ∃ g : Nat, 30 = g + 1 := ⟨29, rfl⟩
    rw [hg]
    simp only [roundsC]
    rw [hstep, hdec]
    simp
  · intro cm s h
    rcases analyzeVerify_cases cm s with ⟨st₀, he⟩ | ⟨st₀, he⟩ | ⟨st₀, he⟩ |
        ⟨k₀, st₀, ex, hk1, hk2, he⟩ | ⟨k₀, st₀, ex, un, hk1, hk2, he⟩ <;>
      rw [he] at h ⊢ <;> simp_all

/-- Witness for C8's non-contiguous verdict at a concrete session. -/
theorem C8_amended_witness :
    (analyzeVerify 1200 noncontigS).code = 1 :=
  C8_amended.2.2 1200 noncontigS (by decide)

/-- Witness for C1's amended search behaviour at the 64-sector cache of the
spec's own scenario. -/
theorem C1_amended_hit_increments_witness :
    (analyzeVerify 1200 (cacheSession 64)).size = some 64 ∧
    (analyzeVerify 1200 (cacheSession 64)).code = 0 :=
  C1_amended_hit_increments 64 (by norm_num) (by norm_num)

/-- Witness for C2's amended no-cache behaviour at the all-miss session. -/
theorem C2_amended_nocache_slow_witness :
    (analyzeVerify 1200 (discS (fun _ _ l => max 1 l) (fun _ _ _ => 100))).code = 0 ∧
    (analyzeVerify 1200 (discS (fun _ _ l => max 1 l) (fun _ _ _ => 100))).noCache = true ∧
    (analyzeVerify 1200 (discS (fun _ _ l => max 1 l) (fun _ _ _ => 100))).size = none ∧
    (analyzeVerify 1200 (discS (fun _ _ l => max 1 l)
      (fun _ _ _ => 100))).st.speedCalls = 1 ∧
    (analyzeVerify 1200 (discS (fun _ _ l => max 1 l)
      (fun _ _ _ => 100))).st.slowRounds = 10 :=
  C2_amended_nocache_slow 1200 _ _
    (fun k o l => lt_of_lt_of_le zero_lt_one (le_max_left 1 l))
    (fun k o l => by norm_num)

end Cachetest
